import Mathlib

/-!
# AngelScript-style interpreter: a shallow embedding

A shallow embedding in Lean of the tree-walking evaluator of the
`angelscript-ts` repository (`src/interpreter/values.ts`,
`src/interpreter/environment.ts`, `src/interpreter/interpreter.ts`),
covering the fragment of the language that the verified properties are
about: literals, identifiers, plain/compound/handle assignment, binary and
unary operators, member and index access, the ternary operator, and the
statements block / expression / if / while / break / continue / switch.

Modelling decisions, recorded once here:

* JavaScript numbers are modelled as exact rationals (`ℚ`).  No verified
  property depends on double rounding; `x | 0` truncation is modelled
  exactly by `toInt32`.
* The JS remainder `l % r` with `r = 0` yields `NaN`; `NaN` is not a
  rational, and no verified property depends on that value (only on the
  kind of the result), so `jsRem l 0` is modelled as `0`.
* TS objects, arrays and native objects are mutable and shared by
  reference; they live in an explicit heap (`List HeapObj`) and the
  corresponding runtime values hold addresses into it.  Reference identity
  (`===`) of two such records is address equality.
* Function declarations, classes, calls, casts and `new` are outside the
  modelled fragment; evaluation paths that would need them produce the
  distinguished outcome `Outcome.unsupported`.  Closure values returned by
  `arrayMethod` / `stringMethod` are modelled as opaque
  `ASValue.nativeFunction` tags (invoking them is out of fragment).
* JS array writes at a negative or fractional index store a non-index
  string property on the array object; nothing in the modelled fragment
  can read such a property back (reads bounds-check first), so such writes
  leave the element list unchanged.
* Recursion through the mutable heap (`unwrap`, `stringify`) and the
  evaluator itself are fuel-based; running out of fuel is the distinguished
  outcome `Outcome.timeout` / `Option.none`.
-/

namespace AngelScript

/-- Heap addresses: indices into the list of heap records. -/
abbrev Addr := Nat

/-! ## 32-bit truncation (`value | 0`) -/

/-- Truncation of a JS number toward zero (the first step of ToInt32). -/
def jsTrunc (q : ℚ) : Int := if 0 ≤ q then ⌊q⌋ else ⌈q⌉

/-- Reduce an integer into the signed 32-bit range by two's-complement
wrap-around. -/
def wrap32 (n : Int) : Int := (n + 2 ^ 31) % 2 ^ 32 - 2 ^ 31

/-- JS `q | 0` (ToInt32): truncate toward zero, then wrap to 32 bits. -/
def toInt32 (q : ℚ) : Int := wrap32 (jsTrunc q)

/-- The signed 32-bit two's-complement range. -/
def inRange32 (n : Int) : Prop := -2 ^ 31 ≤ n ∧ n < 2 ^ 31

instance (n : Int) : Decidable (inRange32 n) := by unfold inRange32; infer_instance

/-! ## Runtime values (`values.ts`)

`object`, `native` and `array` values are references: they carry the heap
address of the record they denote.  `HandleValue.ref` (an `ObjectValue`, a
`NativeObjectValue` or `null`) becomes an `Option Addr`.  `function` /
`nativeFunction` values keep only their name; their bodies are closures,
out of the modelled fragment. -/

inductive ASValue : Type where
  | int (value : Int)
  | float (value : ℚ)
  | bool (value : Bool)
  | string (value : String)
  | null
  | void
  | object (addr : Addr)
  | native (addr : Addr)
  | handle (ref : Option Addr)
  | array (addr : Addr)
  | function (name : String)
  | nativeFunction (name : String)
  deriving DecidableEq

/-- Host-side (`unknown`) values crossing the native boundary.  `hnull`
models both JS `null` and `undefined`.  `hscriptObj` is an `ObjectValue`
that escaped to the host through `unwrap`; `hnativeObj` is a host object
kept in the engine heap.  Host functions are out of the modelled
fragment. -/
inductive HostValue : Type where
  | hnull
  | hnum (value : ℚ)
  | hbool (value : Bool)
  | hstr (value : String)
  | harr (elems : List HostValue)
  | hscriptObj (addr : Addr)
  | hnativeObj (addr : Addr)

/-- Heap records: script objects (`ObjectValue` with its mutable field
map), arrays (`ArrayValue.elements`; `none` is a JS hole left by an
out-of-bounds write), and native objects (their numerically-indexed host
properties, the only host access the modelled fragment performs). -/
inductive HeapObj : Type where
  | obj (typeName : String) (fields : List (String × ASValue))
  | arr (elements : List (Option ASValue))
  | nativeObj (typeName : String) (props : List (ℚ × HostValue))

/-! ## Association lists (TS `Map` in insertion order) -/

def assocGet {α β : Type} [DecidableEq α] : List (α × β) → α → Option β
  | [], _ => none
  | (k0, v0) :: rest, k => if k0 = k then some v0 else assocGet rest k

def assocSet {α β : Type} [DecidableEq α] : List (α × β) → α → β → List (α × β)
  | [], k, v => [(k, v)]
  | (k0, v0) :: rest, k, v =>
      if k0 = k then (k0, v) :: rest else (k0, v0) :: assocSet rest k v

/-! ## Value constructors and helpers (`values.ts`) -/

/-- `INT = (value) => ({ kind: "int", value: value | 0 })`. -/
def INT (value : ℚ) : ASValue := .int (toInt32 value)

def FLOAT (value : ℚ) : ASValue := .float value

def BOOL (value : Bool) : ASValue := .bool value

def STRING (value : String) : ASValue := .string value

def NULL_VAL : ASValue := .null

def VOID_VAL : ASValue := .void

def HANDLE (ref : Option Addr) : ASValue := .handle ref

/-- `isTruthy` from `values.ts`. -/
def isTruthy : ASValue → Bool
  | .bool b => b
  | .int v => decide (v ≠ 0)
  | .float v => decide (v ≠ 0)
  | .string s => decide (s.length > 0)
  | .null => false
  | .handle r => r.isSome
  | .void => false
  | .array _ => true
  | _ => true

/-- `asNumber` from `values.ts`; `none` models the thrown
`Error("Cannot convert ... to number")`. -/
def asNumber : ASValue → Option ℚ
  | .int v => some (v : ℚ)
  | .float v => some v
  | .bool b => some (if b then 1 else 0)
  | _ => none

/-- `isEqual` from `values.ts`, case by case in source order.  Handle
equality `a.ref === b.ref` and object equality `a === b` are reference
identity, i.e. address equality here. -/
def isEqual : ASValue → ASValue → Bool
  | .null, .null => true
  | .null, _ => false
  | _, .null => false
  | .handle r1, .handle r2 => decide (r1 = r2)
  | .int a, .int b => decide ((a : ℚ) = (b : ℚ))
  | .int a, .float b => decide ((a : ℚ) = b)
  | .float a, .int b => decide (a = (b : ℚ))
  | .float a, .float b => decide (a = b)
  | .string a, .string b => decide (a = b)
  | .bool a, .bool b => a = b
  | .object a, .object b => decide (a = b)
  | _, _ => false

/-- `makeNumeric` from `interpreter.ts`: produce a value of the left
reference's kind. -/
def makeNumeric (ref : ASValue) (value : ℚ) : ASValue :=
  match ref with
  | .float _ => FLOAT value
  | _ => INT value

/-- `stringify` from `values.ts`.  Fueled because arrays recurse through
the heap.  The textual form of numbers is Lean's, not ECMAScript's; no
verified property depends on the text. -/
def stringify : Nat → List HeapObj → ASValue → Option String
  | 0, _, _ => none
  | _ + 1, heap, v =>
    match v with
    | .int n => some (toString n)
    | .float q => some (toString q)
    | .bool b => some (if b then "true" else "false")
    | .string s => some s
    | .null => some "null"
    | .void => some ""
    | .handle none => some "null"
    | .handle (some a) =>
        match heap.get? a with
        | some (.obj tn _) => some ("[" ++ tn ++ " handle]")
        | some (.nativeObj tn _) => some ("[" ++ tn ++ " handle]")
        | _ => none
    | .object a =>
        match heap.get? a with
        | some (.obj tn _) => some ("[" ++ tn ++ "]")
        | _ => none
    | .native a =>
        match heap.get? a with
        | some (.nativeObj tn _) => some ("[" ++ tn ++ "]")
        | _ => none
    | .array _ => none
    | .function n => some ("[function " ++ n ++ "]")
    | .nativeFunction n => some ("[native " ++ n ++ "]")

/-! Stringifying an array recurses over its elements through the heap; the
modelled fragment never needs it (no verified property concatenates an
array into a string), so `stringify` answers `none` there, which the
evaluator surfaces as `Outcome.unsupported`. -/

/-! ## The native boundary (`Interpreter.wrapNative` / `Interpreter.unwrap`)

`wrapNative` follows the source branch by branch: `null`/`undefined`,
`number` (split on `Number.isInteger`, i.e. denominator 1), `boolean`,
`string`, `Array` (a fresh `ArrayValue` of wrapped elements — here a fresh
heap record), any other `object` (a `Native` wrapper around the same host
reference).  The `function` branch is out of the modelled fragment (no
`HostValue` constructor produces one).  A script object that escaped to
the host (`hscriptObj`) re-enters through the same `typeof val ===
"object"` branch: the resulting `Native` wrapper keeps the referent's
address. -/

mutual

def wrapNative : HostValue → List HeapObj → ASValue × List HeapObj
  | .hnull, h => (NULL_VAL, h)
  | .hnum q, h => (if q.den = 1 then INT q else FLOAT q, h)
  | .hbool b, h => (BOOL b, h)
  | .hstr s, h => (STRING s, h)
  | .harr l, h =>
      let p := wrapNativeList l h
      (ASValue.array p.2.length, p.2 ++ [HeapObj.arr (p.1.map some)])
  | .hscriptObj a, h => (ASValue.native a, h)
  | .hnativeObj a, h => (ASValue.native a, h)

def wrapNativeList : List HostValue → List HeapObj → List ASValue × List HeapObj
  | [], h => ([], h)
  | x :: rest, h =>
      let p := wrapNative x h
      let p2 := wrapNativeList rest p.2
      (p.1 :: p2.1, p2.2)

end

mutual

/-- `Interpreter.unwrap`, case by case in source order.  Fueled: arrays
recurse through the heap.  `void` unwraps to JS `undefined` and `handle`
with a null ref to JS `null`; both are `hnull` here.  A handle's referent
unwraps to the underlying host object (`native` case) or to the
`ObjectValue` itself.  `function`/`native_function` fall into the source's
`default: return null`.  An array hole (none cell) is unwrapped as `null`;
holes are only produced by out-of-bounds index writes and no verified
property unwraps such an array. -/
def unwrap : Nat → List HeapObj → ASValue → Option HostValue
  | 0, _, _ => none
  | fuel + 1, heap, v =>
    match v with
    | .int n => some (.hnum (n : ℚ))
    | .float q => some (.hnum q)
    | .bool b => some (.hbool b)
    | .string s => some (.hstr s)
    | .null => some .hnull
    | .void => some .hnull
    | .handle none => some .hnull
    | .handle (some a) =>
        match heap.get? a with
        | some (.nativeObj _ _) => some (.hnativeObj a)
        | some (.obj _ _) => some (.hscriptObj a)
        | _ => none
    | .object a => some (.hscriptObj a)
    | .native a => some (.hnativeObj a)
    | .array a =>
        match heap.get? a with
        | some (.arr cells) => (unwrapCells fuel heap cells).map .harr
        | _ => none
    | .function _ => some .hnull
    | .nativeFunction _ => some .hnull

/-- Element-wise unwrapping of an array's cells (`elements.map(e => this.unwrap(e))`). -/
def unwrapCells : Nat → List HeapObj → List (Option ASValue) → Option (List HostValue)
  | _, _, [] => some []
  | fuel, heap, c :: rest =>
    match unwrap fuel heap (c.getD NULL_VAL), unwrapCells fuel heap rest with
    | some x, some xs => some (x :: xs)
    | _, _ => none

end

/-! ## Environments (`environment.ts`)

An `Environment` is a mutable name→value map plus a parent link; since the
modelled fragment has no closures, the live chain at any point is a stack
of frames, innermost first. -/

abbrev Frame := List (String × ASValue)

abbrev Env := List Frame

/-- `Environment.get`: walk up the chain; `none` models the
`RuntimeError("Undefined variable")`. -/
def envGet : Env → String → Option ASValue
  | [], _ => none
  | f :: rest, n =>
    match assocGet f n with
    | some v => some v
    | none => envGet rest n

/-- `Environment.has`: walk up the chain. -/
def envHas (e : Env) (n : String) : Bool := (envGet e n).isSome

/-- `Environment.set`: update the nearest scope that has the name, else
define in the current scope. -/
def envSet : Env → String → ASValue → Env
  | [], n, v => [[(n, v)]]
  | f :: rest, n, v =>
      if (assocGet f n).isSome then assocSet f n v :: rest
      else if envHas rest n then f :: envSet rest n v
      else assocSet f n v :: rest

/-- `Environment.define`: always bind in the current scope. -/
def envDefine : Env → String → ASValue → Env
  | [], n, v => [[(n, v)]]
  | f :: rest, n, v => assocSet f n v :: rest

/-! ## Interpreter state and outcomes -/

/-- The mutable state an evaluation step sees: the heap of shared records
and the current scope chain. -/
structure State where
  heap : List HeapObj
  env : Env

/-- The result of one evaluation: a value plus the state after it, or one
of the thrown signals (`BreakSignal`, `ContinueSignal`, `RuntimeError`,
the plain `Error` thrown by `asNumber`), which in TS leave the mutated
state in place — hence every signal carries the state at the throw point.
`unsupported` marks paths that leave the modelled fragment, `timeout`
marks fuel exhaustion; neither corresponds to a source behaviour. -/
inductive Outcome (α : Type) : Type where
  | ok (a : α) (s : State)
  | brk (s : State)
  | cont (s : State)
  | err (msg : String) (s : State)
  | tyErr (msg : String) (s : State)
  | unsupported (s : State)
  | timeout

/-- Sequencing: signals propagate (TS exceptions unwind). -/
def Outcome.bind {α β : Type} : Outcome α → (α → State → Outcome β) → Outcome β
  | .ok a s, f => f a s
  | .brk s, _ => .brk s
  | .cont s, _ => .cont s
  | .err m s, _ => .err m s
  | .tyErr m s, _ => .tyErr m s
  | .unsupported s, _ => .unsupported s
  | .timeout, _ => .timeout

/-- Apply a state transformation to whatever state an outcome carries
(used to pop a block's child frame on both normal and thrown exits). -/
def Outcome.mapState {α : Type} (g : State → State) : Outcome α → Outcome α
  | .ok a s => .ok a (g s)
  | .brk s => .brk (g s)
  | .cont s => .cont (g s)
  | .err m s => .err m (g s)
  | .tyErr m s => .tyErr m (g s)
  | .unsupported s => .unsupported (g s)
  | .timeout => .timeout

/-- Errors raised by the pure helpers: a `RuntimeError` or the plain
`Error` from `asNumber`. -/
inductive EvalErr : Type where
  | rerr (msg : String)
  | terr (msg : String)

/-- Surface a pure helper's result in the current state. -/
def liftExcept {α : Type} : Except EvalErr α → State → Outcome α
  | .ok a, s => .ok a s
  | .error (.rerr m), s => .err m s
  | .error (.terr m), s => .tyErr m s

/-- `asNumber` with the source's thrown `Error` made explicit. -/
def asNumberE (v : ASValue) : Except EvalErr ℚ :=
  match asNumber v with
  | some q => .ok q
  | none => .error (.terr "Cannot convert to number")

/-! ## JS numeric and 32-bit bitwise operations -/

/-- JS `l % r`: remainder with the dividend's sign,
`l - r * trunc(l / r)`.  For `r = 0` JS yields `NaN`; modelled as `0`
(no verified property depends on that value, only on its kind). -/
def jsRem (l r : ℚ) : ℚ := if r = 0 then 0 else l - r * (jsTrunc (l / r) : ℚ)

/-- The unsigned 32-bit representative of a wrapped integer. -/
def toUInt32 (n : Int) : Nat := (n % 2 ^ 32).toNat

/-- Back from an unsigned 32-bit representative to the signed range. -/
def ofUInt32 (u : Nat) : Int := if u < 2 ^ 31 then (u : Int) else (u : Int) - 2 ^ 32

/-- 32-bit `&` on wrapped integers, through their two's-complement bits. -/
def and32 (a b : Int) : Int := ofUInt32 (Nat.land (toUInt32 a) (toUInt32 b))

/-- 32-bit `|`. -/
def or32 (a b : Int) : Int := ofUInt32 (Nat.lor (toUInt32 a) (toUInt32 b))

/-- 32-bit `^`. -/
def xor32 (a b : Int) : Int := ofUInt32 (Nat.xor (toUInt32 a) (toUInt32 b))

/-- JS `<<`: shift the 32-bit pattern left by the count mod 32, back to
signed. -/
def shl32 (a b : Int) : Int := ofUInt32 (toUInt32 a <<< (toUInt32 b % 32) % 2 ^ 32)

/-- JS `>>` (sign-propagating): floor-divide by the corresponding power of
two; the count is taken mod 32.  (`Int./` is Euclidean division, which is
floor division for a positive divisor.) -/
def sar32 (a b : Int) : Int := a / 2 ^ (toUInt32 b % 32)

/-- The `computeValue` closure inside `Interpreter.evalAssign`: the value
a compound assignment stores, from the target's current value.  `INT` and
the `(l | 0)` coercions appear exactly as in the source. -/
def computeValue (op : String) (value : ASValue) (current : ASValue) : Except EvalErr ASValue :=
  if op = "=" then .ok value else
  (asNumberE current).bind fun l =>
  (asNumberE value).bind fun r =>
  if op = "+=" then .ok (makeNumeric current (l + r))
  else if op = "-=" then .ok (makeNumeric current (l - r))
  else if op = "*=" then .ok (makeNumeric current (l * r))
  else if op = "/=" then .ok (makeNumeric current (if r ≠ 0 then l / r else 0))
  else if op = "%=" then .ok (makeNumeric current (jsRem l r))
  else if op = "&=" then .ok (INT ((and32 (toInt32 l) (toInt32 r) : Int) : ℚ))
  else if op = "|=" then .ok (INT ((or32 (toInt32 l) (toInt32 r) : Int) : ℚ))
  else if op = "^=" then .ok (INT ((xor32 (toInt32 l) (toInt32 r) : Int) : ℚ))
  else .error (.rerr "Unknown op")

/-- The switch over `expr.op` at the end of `Interpreter.evalBinary`
(both operands already evaluated; `&&`, `||` and string `+` already
dispatched).  The left operand's `asNumber` is taken first, as in JS
evaluation order. -/
def binOpValues (op : String) (left right : ASValue) : Except EvalErr ASValue :=
  if op = "+" then
    (asNumberE left).bind fun l => (asNumberE right).bind fun r =>
      .ok (makeNumeric left (l + r))
  else if op = "-" then
    (asNumberE left).bind fun l => (asNumberE right).bind fun r =>
      .ok (makeNumeric left (l - r))
  else if op = "*" then
    (asNumberE left).bind fun l => (asNumberE right).bind fun r =>
      .ok (makeNumeric left (l * r))
  else if op = "/" then
    -- `r !== 0 ? asNumber(left) / r : 0`: the left conversion only happens
    -- when the divisor is non-zero.
    (asNumberE right).bind fun r =>
      if r ≠ 0 then (asNumberE left).bind fun l => .ok (makeNumeric left (l / r))
      else .ok (makeNumeric left 0)
  else if op = "%" then
    (asNumberE left).bind fun l => (asNumberE right).bind fun r =>
      .ok (makeNumeric left (jsRem l r))
  else if op = "&" then
    (asNumberE left).bind fun l => (asNumberE right).bind fun r =>
      .ok (INT ((and32 (toInt32 l) (toInt32 r) : Int) : ℚ))
  else if op = "|" then
    (asNumberE left).bind fun l => (asNumberE right).bind fun r =>
      .ok (INT ((or32 (toInt32 l) (toInt32 r) : Int) : ℚ))
  else if op = "^" then
    (asNumberE left).bind fun l => (asNumberE right).bind fun r =>
      .ok (INT ((xor32 (toInt32 l) (toInt32 r) : Int) : ℚ))
  else if op = "<<" then
    (asNumberE left).bind fun l => (asNumberE right).bind fun r =>
      .ok (INT ((shl32 (toInt32 l) (toInt32 r) : Int) : ℚ))
  else if op = ">>" then
    (asNumberE left).bind fun l => (asNumberE right).bind fun r =>
      .ok (INT ((sar32 (toInt32 l) (toInt32 r) : Int) : ℚ))
  else if op = "==" then .ok (BOOL (isEqual left right))
  else if op = "!=" then .ok (BOOL (!isEqual left right))
  else if op = "<" then
    (asNumberE left).bind fun l => (asNumberE right).bind fun r => .ok (BOOL (decide (l < r)))
  else if op = ">" then
    (asNumberE left).bind fun l => (asNumberE right).bind fun r => .ok (BOOL (decide (l > r)))
  else if op = "<=" then
    (asNumberE left).bind fun l => (asNumberE right).bind fun r => .ok (BOOL (decide (l ≤ r)))
  else if op = ">=" then
    (asNumberE left).bind fun l => (asNumberE right).bind fun r => .ok (BOOL (decide (l ≥ r)))
  else .error (.rerr "Unknown binary op")

/-- `expr.op === "+" && (left.kind === "string" || right.kind === "string")`. -/
def isStringV : ASValue → Bool
  | .string _ => true
  | _ => false

/-! ## The AST fragment (`parser/ast.ts`)

Constructors mirror the `Expr` / `Stmt` variants the verified properties
exercise.  `CallExpr`, `NewExpr`, `CastExpr`, `VarDecl`, `ForStmt`,
`DoWhileStmt` and `ReturnStmt` are outside the modelled fragment (they
need functions, classes or declaration defaulting).  `line` fields are
dropped: they only feed error messages. -/

inductive Expr : Type where
  | intLit (value : ℚ)
  | floatLit (value : ℚ)
  | stringLit (value : String)
  | boolLit (value : Bool)
  | nullLit
  | ident (name : String)
  | assign (target : Expr) (op : String) (value : Expr)
  | handleAssign (target : Expr) (value : Expr)
  | binary (left : Expr) (op : String) (right : Expr)
  | unary (op : String) (operand : Expr) (pre : Bool)
  | member (object : Expr) (memberName : String)
  | index (object : Expr) (idx : Expr)
  | ternary (condition : Expr) (thenE : Expr) (elseE : Expr)

inductive Stmt : Type where
  | block (body : List Stmt)
  | exprStmt (expr : Expr)
  | ifStmt (condition : Expr) (thenS : Stmt) (elseS : Option Stmt)
  | whileStmt (condition : Expr) (body : Stmt)
  | breakStmt
  | continueStmt
  | switchStmt (expr : Expr) (cases : List (Option Expr × List Stmt))

/-! ## Member and index helpers -/

/-- The names `Interpreter.arrayMethod` does not reject. -/
def arrayMethodNames : List String :=
  ["size", "length", "empty", "push", "insertLast", "pop", "removeLast",
   "resize", "reserve", "insertAt", "removeAt", "find"]

/-- The names `Interpreter.stringMethod` knows. -/
def stringMethodNames : List String :=
  ["len", "length", "empty", "toInt", "toFloat", "toUpper", "toLower",
   "getToken", "substr", "findFirst"]

/-- Result of `getMember` / `getFields`, value or thrown `RuntimeError`;
`unsup` marks out-of-fragment paths. -/
inductive MemberRes : Type where
  | val (v : ASValue)
  | rerr (msg : String)
  | unsup

/-- `Interpreter.getMember` after handle dereferencing.  With no class
declarations in the modelled fragment, `classDefs` is empty, so a missing
object field falls through to the `No member` error exactly as in the
source.  Array and string members are the method closures of
`arrayMethod` / `stringMethod`, modelled as opaque `nativeFunction` tags.
String-keyed host property access (`native` case) is out of fragment. -/
def getMemberD (heap : List HeapObj) (v : ASValue) (name : String) : MemberRes :=
  match v with
  | .object a =>
      match heap.get? a with
      | some (.obj _ fields) =>
          match assocGet fields name with
          | some fv => .val fv
          | none => .rerr "No member"
      | _ => .unsup
  | .array _ => if name ∈ arrayMethodNames then .val (.nativeFunction name) else .rerr "No array method"
  | .native _ => .unsup
  | .string _ => if name ∈ stringMethodNames then .val (.nativeFunction name) else .rerr "No string method"
  | _ => .rerr "Cannot access member"

/-- `Interpreter.getMember`: dereference handles first (null handle →
runtime error), then resolve on the referent. -/
def getMember (heap : List HeapObj) (v : ASValue) (name : String) : MemberRes :=
  match v with
  | .handle none => .rerr "Null handle dereference"
  | .handle (some a) =>
      match heap.get? a with
      | some (.obj _ _) => getMemberD heap (.object a) name
      | some (.nativeObj _ _) => getMemberD heap (.native a) name
      | _ => .unsup
  | _ => getMemberD heap v name

/-- `Interpreter.getFields`, returning the address of the object whose
field map the caller will mutate.  A handle to a native object falls
through to the final `Cannot get fields` throw, as in the source. -/
def getFieldsAddr (heap : List HeapObj) (v : ASValue) : Except String Addr :=
  match v with
  | .object a => .ok a
  | .handle none => .error "Null handle field access"
  | .handle (some a) =>
      match heap.get? a with
      | some (.obj _ _) => .ok a
      | _ => .error "Cannot get fields of handle"
  | _ => .error "Cannot get fields"

/-- Overwrite a heap record. -/
def heapSet (heap : List HeapObj) (a : Addr) (o : HeapObj) : List HeapObj :=
  heap.set a o

/-- JS read `elements[i]` for a numeric index: an element for an in-range
integer index, otherwise `undefined` (`none`) — a hole, a fractional or a
negative index. -/
def jsArrayGet (cells : List (Option ASValue)) (i : ℚ) : Option ASValue :=
  if i.den = 1 ∧ 0 ≤ i.num then
    match cells.get? i.num.toNat with
    | some (some v) => some v
    | _ => none
  else none

/-- JS write `elements[i] = v` for a numeric index: update in range, grow
with holes past the end; a negative or fractional index becomes a
non-index property, invisible to the modelled fragment. -/
def jsArraySet (cells : List (Option ASValue)) (i : ℚ) (v : ASValue) : List (Option ASValue) :=
  if i.den = 1 ∧ 0 ≤ i.num then
    if i.num.toNat < cells.length then cells.set i.num.toNat (some v)
    else cells ++ List.replicate (i.num.toNat - cells.length) none ++ [some v]
  else cells

/-- Indexed read on a native object: `wrapNative(obj.native[i])`.  A
missing property is `undefined`, whose wrap is `NULL_VAL`; wrapping a host
array allocates. -/
def nativeIndexRead (props : List (ℚ × HostValue)) (i : ℚ) (s : State) : Outcome ASValue :=
  match assocGet props i with
  | some hv =>
      let p := wrapNative hv s.heap
      .ok p.1 { s with heap := p.2 }
  | none => .ok NULL_VAL s

/-! ## The expression evaluator (`Interpreter.evalExpr` and the private
methods it reaches).  Fueled: every recursive call runs on one unit less.
`evalBinary`, `evalUnary` and `evalIndex` are inlined at their dispatch
sites, in source order. -/

mutual

def evalExpr : Nat → Expr → State → Outcome ASValue
  | 0, _, _ => .timeout
  | fuel + 1, e, s =>
    match e with
    | .intLit v => .ok (INT v) s
    | .floatLit v => .ok (FLOAT v) s
    | .stringLit v => .ok (STRING v) s
    | .boolLit v => .ok (BOOL v) s
    | .nullLit => .ok NULL_VAL s
    | .ident n =>
        match envGet s.env n with
        | some v => .ok v s
        | none => .err "Undefined variable" s
    | .assign target op value =>
        (evalExpr fuel value s).bind fun v s1 =>
          (assignTo fuel target (computeValue op v) s1).bind fun _ s2 => .ok v s2
    | .handleAssign target value =>
        (evalExpr fuel value s).bind fun rhs s1 =>
          let hv : ASValue :=
            match rhs with
            | .handle _ => rhs
            | .null => HANDLE none
            | .object a => HANDLE (some a)
            | .native a => HANDLE (some a)
            | _ => HANDLE none
          (assignTo fuel target (fun _ => .ok hv) s1).bind fun _ s2 => .ok hv s2
    | .binary l op r =>
        if op = "&&" then
          (evalExpr fuel l s).bind fun lv s1 =>
            if isTruthy lv then evalExpr fuel r s1 else .ok (BOOL false) s1
        else if op = "||" then
          (evalExpr fuel l s).bind fun lv s1 =>
            if isTruthy lv then .ok (BOOL true) s1 else evalExpr fuel r s1
        else
          (evalExpr fuel l s).bind fun lv s1 =>
          (evalExpr fuel r s1).bind fun rv s2 =>
          if op = "+" ∧ (isStringV lv = true ∨ isStringV rv = true) then
            match stringify fuel s2.heap lv, stringify fuel s2.heap rv with
            | some sl, some sr => .ok (STRING (sl ++ sr)) s2
            | _, _ => .unsupported s2
          else liftExcept (binOpValues op lv rv) s2
    | .unary op operand pre =>
        if op = "++" ∨ op = "--" then
          let delta : ℚ := if op = "++" then 1 else -1
          (evalExpr fuel operand s).bind fun current s1 =>
            (liftExcept (asNumberE current) s1).bind fun n s2 =>
              let newVal := makeNumeric current (n + delta)
              (assignTo fuel operand (fun _ => .ok newVal) s2).bind fun _ s3 =>
                .ok (if pre then newVal else current) s3
        else
          (evalExpr fuel operand s).bind fun val s1 =>
            if op = "-" then
              (liftExcept (asNumberE val) s1).bind fun n s2 => .ok (makeNumeric val (-n)) s2
            else if op = "!" then .ok (BOOL (!isTruthy val)) s1
            else if op = "~" then
              -- `INT(~(asNumber(val) | 0))`: JS `~m` on a 32-bit int `m` is `-m - 1`.
              (liftExcept (asNumberE val) s1).bind fun n s2 =>
                .ok (INT ((-(toInt32 n) - 1 : Int) : ℚ)) s2
            else if op = "@" then
              .ok (match val with
                   | .handle _ => val
                   | .object a => HANDLE (some a)
                   | .native a => HANDLE (some a)
                   | _ => HANDLE none) s1
            else .err "Unknown unary op" s1
    | .member objE m =>
        (evalExpr fuel objE s).bind fun obj s1 =>
          match getMember s1.heap obj m with
          | .val v => .ok v s1
          | .rerr msg => .err msg s1
          | .unsup => .unsupported s1
    | .index objE idxE =>
        (evalExpr fuel objE s).bind fun obj s1 =>
        (evalExpr fuel idxE s1).bind fun idxV s2 =>
        (liftExcept (asNumberE idxV) s2).bind fun i s3 =>
        match obj with
        | .array a =>
            match s3.heap.get? a with
            | some (.arr cells) =>
                if i < 0 ∨ (cells.length : ℚ) ≤ i then .err "Array index out of bounds" s3
                else
                  match jsArrayGet cells i with
                  | some v => .ok v s3
                  | none => .unsupported s3
            | _ => .unsupported s3
        | .handle (some a) =>
            match s3.heap.get? a with
            | some (.nativeObj _ props) => nativeIndexRead props i s3
            | _ => .err "Index on non-indexable value" s3
        | .native a =>
            match s3.heap.get? a with
            | some (.nativeObj _ props) => nativeIndexRead props i s3
            | _ => .unsupported s3
        | _ => .err "Index on non-indexable value" s3
    | .ternary c t f =>
        (evalExpr fuel c s).bind fun cv s1 =>
          if isTruthy cv then evalExpr fuel t s1 else evalExpr fuel f s1

/-- `Interpreter.assignTo`: resolve the target and store
`getValue(current)`.  `getValue` is the caller's closure (`computeValue`,
a constant handle, or the `++`/`--` new value). -/
def assignTo : Nat → Expr → (ASValue → Except EvalErr ASValue) → State → Outcome Unit
  | 0, _, _, _ => .timeout
  | fuel + 1, target, getValue, s =>
    match target with
    | .ident name =>
        let current := match envGet s.env name with | some v => v | none => INT 0
        (liftExcept (getValue current) s).bind fun nv s1 =>
          .ok () { s1 with env := envSet s1.env name nv }
    | .member objE mname =>
        (evalExpr fuel objE s).bind fun obj s1 =>
          match getFieldsAddr s1.heap obj with
          | .error msg => .err msg s1
          | .ok a =>
              match s1.heap.get? a with
              | some (.obj tn fields) =>
                  let current := match assocGet fields mname with | some v => v | none => INT 0
                  (liftExcept (getValue current) s1).bind fun nv s2 =>
                    .ok () { s2 with heap := heapSet s2.heap a (.obj tn (assocSet fields mname nv)) }
              | _ => .unsupported s1
    | .index objE idxE =>
        (evalExpr fuel objE s).bind fun obj s1 =>
        (evalExpr fuel idxE s1).bind fun idxV s2 =>
        (liftExcept (asNumberE idxV) s2).bind fun i s3 =>
        match obj with
        | .array a =>
            match s3.heap.get? a with
            | some (.arr cells) =>
                let current := (jsArrayGet cells i).getD (INT 0)
                (liftExcept (getValue current) s3).bind fun nv s4 =>
                  .ok () { s4 with heap := heapSet s4.heap a (.arr (jsArraySet cells i nv)) }
            | _ => .unsupported s3
        | .native a =>
            match s3.heap.get? a with
            | some (.nativeObj tn props) =>
                (nativeIndexRead props i s3).bind fun current s4 =>
                (liftExcept (getValue current) s4).bind fun nv s5 =>
                match unwrap fuel s5.heap nv with
                | some hv =>
                    .ok () { s5 with heap := heapSet s5.heap a (.nativeObj tn (assocSet props i hv)) }
                | none => .timeout
            | _ => .unsupported s3
        | _ => .err "Index assignment on non-array" s3
    | _ => .err "Invalid assignment target" s

end

/-! ## The statement executor (`Interpreter.execStmt` and friends) -/

/-- Drop the innermost frame (leaving a block's child environment). -/
def popFrame (s : State) : State := { s with env := s.env.tail }

mutual

/-- `Interpreter.execStmt` over the modelled statements.  `Block` runs its
body in a child environment (`env.child()`), dropped again on every exit
path; `Break`/`Continue` raise their signals; `Switch` evaluates the
discriminant once and hands the value to the case scan. -/
def execStmt : Nat → Stmt → State → Outcome Unit
  | 0, _, _ => .timeout
  | fuel + 1, st, s =>
    match st with
    | .block body => (execStmts fuel body { s with env := [] :: s.env }).mapState popFrame
    | .exprStmt e => (evalExpr fuel e s).bind fun _ s1 => .ok () s1
    | .ifStmt c t e =>
        (evalExpr fuel c s).bind fun v s1 =>
          if isTruthy v then execStmt fuel t s1
          else
            match e with
            | some es => execStmt fuel es s1
            | none => .ok () s1
    | .whileStmt c b => execWhile fuel c b s
    | .breakStmt => .brk s
    | .continueStmt => .cont s
    | .switchStmt e cases =>
        (evalExpr fuel e s).bind fun val s1 => switchCases fuel val false cases s1

/-- `Interpreter.execBlock`'s loop over a statement list. -/
def execStmts : Nat → List Stmt → State → Outcome Unit
  | 0, _, _ => .timeout
  | _ + 1, [], s => .ok () s
  | fuel + 1, st :: rest, s => (execStmt fuel st s).bind fun _ s1 => execStmts fuel rest s1

/-- `Interpreter.execWhile`: `Break` ends the loop, `Continue` re-tests
the condition, other signals propagate. -/
def execWhile : Nat → Expr → Stmt → State → Outcome Unit
  | 0, _, _, _ => .timeout
  | fuel + 1, c, b, s =>
    (evalExpr fuel c s).bind fun v s1 =>
      if isTruthy v then
        match execStmt fuel b s1 with
        | .ok _ s2 => execWhile fuel c b s2
        | .brk s2 => .ok () s2
        | .cont s2 => execWhile fuel c b s2
        | o => o
      else .ok () s1

/-- The `for (const c of stmt.cases)` loop of `Interpreter.execSwitch`,
with its `matched` flag.  A case is a pair (optional guard expression —
`none` is `default:` — and body). -/
def switchCases : Nat → ASValue → Bool → List (Option Expr × List Stmt) → State → Outcome Unit
  | 0, _, _, _, _ => .timeout
  | _ + 1, _, _, [], s => .ok () s
  | fuel + 1, val, matched, (g, body) :: rest, s =>
    if matched then runMatchedCase fuel val body rest s
    else
      match g with
      | none => runMatchedCase fuel val body rest s
      | some ge =>
          (evalExpr fuel ge s).bind fun gv s1 =>
            if isEqual val gv then runMatchedCase fuel val body rest s1
            else switchCases fuel val false rest s1

/-- One matched case: run its body in the shared `try`; a `BreakSignal`
returns from the whole switch, a normal finish falls through into the
remaining cases with `matched` still set, anything else propagates. -/
def runMatchedCase : Nat → ASValue → List Stmt → List (Option Expr × List Stmt) → State → Outcome Unit
  | fuel, val, body, rest, s =>
    match execStmts fuel body s with
    | .brk s2 => .ok () s2
    | .ok _ s2 => switchCases fuel val true rest s2
    | o => o

end

/-! ## The specified behaviour of `switch`, written from the spec's words

For the refinement proof of the switch semantics: "on the first matching
case (or `default` after no earlier match) ... executes that case's body
and all subsequent case bodies until a `Break` signal". -/

/-- Modelled from the spec: execute a list of case bodies in order until a
body raises `Break`, which ends the switch normally. -/
def runBodies : Nat → List (List Stmt) → State → Outcome Unit
  | 0, _, _ => .timeout
  | _ + 1, [], s => .ok () s
  | fuel + 1, b :: rest, s =>
    match execStmts fuel b s with
    | .brk s2 => .ok () s2
    | .ok _ s2 => runBodies fuel rest s2
    | o => o

/-- Modelled from the spec: scan the cases in source order; the first
whose guard value equals the discriminant — or the first `default` — wins,
and from it onward every case body runs (`runBodies`); guards after the
match are never evaluated. -/
def switchSpec : Nat → ASValue → List (Option Expr × List Stmt) → State → Outcome Unit
  | 0, _, _, _ => .timeout
  | _ + 1, _, [], s => .ok () s
  | fuel + 1, val, (g, body) :: rest, s =>
    match g with
    | none => runBodies (fuel + 1) (body :: rest.map Prod.snd) s
    | some ge =>
        (evalExpr fuel ge s).bind fun gv s1 =>
          if isEqual val gv then runBodies (fuel + 1) (body :: rest.map Prod.snd) s1
          else switchSpec fuel val rest s1

/-! ## Statement-side definitions for the verified properties -/

/-- A value's `Int` payload, if any, lies in the signed 32-bit range. -/
def ASValue.intOK : ASValue → Prop
  | .int n => inRange32 n
  | _ => True

/-- An array cell respects the `Int` range (holes trivially do). -/
def cellOK : Option ASValue → Prop
  | some v => v.intOK
  | none => True

/-- Every value stored in a heap record respects the `Int` range. -/
def HeapObj.OK : HeapObj → Prop
  | .obj _ fields => ∀ p ∈ fields, ASValue.intOK p.2
  | .arr cells => ∀ c ∈ cells, cellOK c
  | .nativeObj _ _ => True

/-- Every value reachable from the state respects the `Int` range. -/
def State.OK (s : State) : Prop :=
  (∀ o ∈ s.heap, o.OK) ∧ ∀ f ∈ s.env, ∀ p ∈ f, ASValue.intOK (p : String × ASValue).2

/-- An outcome respects the `Int` range: the produced value (against
`vOK`) and whatever state it carries. -/
def Outcome.IntsOK {α : Type} (vOK : α → Prop) : Outcome α → Prop
  | .ok a s => vOK a ∧ s.OK
  | .brk s => s.OK
  | .cont s => s.OK
  | .err _ s => s.OK
  | .tyErr _ s => s.OK
  | .unsupported s => s.OK
  | .timeout => True

/-- The operand kinds the numeric binary operators are specified over. -/
def isNumericV : ASValue → Bool
  | .int _ => true
  | .float _ => true
  | _ => false

def isFloatV : ASValue → Bool
  | .float _ => true
  | _ => false

/-- The mathematical result of an arithmetic binary operator, before the
left-kind `Int`/`Float` packaging. -/
def arithValue (op : String) (l r : ℚ) : ℚ :=
  if op = "+" then l + r
  else if op = "-" then l - r
  else if op = "*" then l * r
  else if op = "/" then (if r ≠ 0 then l / r else 0)
  else jsRem l r

/-- The result of a bitwise/shift binary operator: both operands coerced
to 32-bit integers first. -/
def bitValue (op : String) (l r : ℚ) : Int :=
  if op = "&" then and32 (toInt32 l) (toInt32 r)
  else if op = "|" then or32 (toInt32 l) (toInt32 r)
  else if op = "^" then xor32 (toInt32 l) (toInt32 r)
  else if op = "<<" then shl32 (toInt32 l) (toInt32 r)
  else sar32 (toInt32 l) (toInt32 r)

/-- The host values the round-trip property quantifies over: null,
booleans, strings, numbers, and arrays thereof — with integer numbers
restricted to the signed 32-bit range (the amendment the `INT` truncation
forces). -/
def ValueHost : HostValue → Prop
  | .hnull => True
  | .hnum q => q.den = 1 → inRange32 q.num
  | .hbool _ => True
  | .hstr _ => True
  | .harr l => ∀ x ∈ l, ValueHost x
  | .hscriptObj _ => False
  | .hnativeObj _ => False

mutual

/-- Enough `unwrap` fuel for a host value's nesting depth. -/
def hostDepth : HostValue → Nat
  | .harr l => 1 + hostDepthList l
  | _ => 1

def hostDepthList : List HostValue → Nat
  | [] => 0
  | x :: rest => max (hostDepth x) (hostDepthList rest)

end

/-! # Lemmas -/

theorem wrap32_inRange (n : Int) : inRange32 (wrap32 n) := by
  unfold wrap32 inRange32
  have h31 : (2 : Int) ^ 31 = 2147483648 := by norm_num
  have h32 : (2 : Int) ^ 32 = 4294967296 := by norm_num
  have h0 := Int.emod_nonneg (n + 2 ^ 31) (by norm_num : (2 : Int) ^ 32 ≠ 0)
  have h1 := Int.emod_lt_of_pos (n + 2 ^ 31) (by norm_num : (0 : Int) < 2 ^ 32)
  omega

theorem wrap32_eq_self {n : Int} (h : inRange32 n) : wrap32 n = n := by
  unfold wrap32
  unfold inRange32 at h
  have h31 : (2 : Int) ^ 31 = 2147483648 := by norm_num
  have h32 : (2 : Int) ^ 32 = 4294967296 := by norm_num
  have : (n + 2 ^ 31) % 2 ^ 32 = n + 2 ^ 31 := Int.emod_eq_of_lt (by omega) (by omega)
  omega

theorem jsTrunc_intCast (n : Int) : jsTrunc (n : ℚ) = n := by
  unfold jsTrunc
  split <;> simp

theorem toInt32_intCast {n : Int} (h : inRange32 n) : toInt32 (n : ℚ) = n := by
  unfold toInt32
  rw [jsTrunc_intCast, wrap32_eq_self h]

theorem toInt32_inRange (q : ℚ) : inRange32 (toInt32 q) := wrap32_inRange _

theorem INT_intOK (q : ℚ) : ASValue.intOK (INT q) := toInt32_inRange q

theorem toUInt32_lt (n : Int) : toUInt32 n < 2 ^ 32 := by
  unfold toUInt32
  have h0 := Int.emod_nonneg n (by norm_num : (2 : Int) ^ 32 ≠ 0)
  have h1 := Int.emod_lt_of_pos n (by norm_num : (0 : Int) < 2 ^ 32)
  have h32 : (2 : Int) ^ 32 = 4294967296 := by norm_num
  omega

theorem ofUInt32_inRange {u : Nat} (h : u < 2 ^ 32) : inRange32 (ofUInt32 u) := by
  unfold ofUInt32 inRange32
  split <;> push_cast <;> omega

theorem and32_inRange (a b : Int) : inRange32 (and32 a b) :=
  ofUInt32_inRange (lt_of_le_of_lt (Nat.and_le_left) (toUInt32_lt a))

theorem or32_inRange (a b : Int) : inRange32 (or32 a b) :=
  ofUInt32_inRange (Nat.or_lt_two_pow (toUInt32_lt a) (toUInt32_lt b))

theorem xor32_inRange (a b : Int) : inRange32 (xor32 a b) :=
  ofUInt32_inRange (Nat.xor_lt_two_pow (toUInt32_lt a) (toUInt32_lt b))

theorem shl32_inRange (a b : Int) : inRange32 (shl32 a b) :=
  ofUInt32_inRange (Nat.mod_lt _ (by norm_num))

theorem sar32_inRange {a : Int} (h : inRange32 a) (b : Int) : inRange32 (sar32 a b) := by
  unfold sar32
  unfold inRange32 at h ⊢
  set k := toUInt32 b % 32 with hk
  have hd : (0 : Int) < 2 ^ k := by positivity
  have hd1 : (1 : Int) ≤ 2 ^ k := hd
  constructor
  · rw [Int.le_ediv_iff_mul_le hd]
    nlinarith
  · rw [Int.ediv_lt_iff_lt_mul hd]
    nlinarith

/-! # The verified properties -/

/-- C9: comparing a null handle with the `null` literal yields `false`:
`isEqual` answers `false` whenever exactly one side is the `Null` value,
and never dereferences handles (it reads no heap at all), so `h == null`
evaluates to `false` for a null handle `h`. -/
theorem c9_null_handle_ne_null_literal :
    isEqual (.handle none) .null = false ∧
    isEqual .null (.handle none) = false ∧
    isTruthy (.handle none) = false ∧
    ∀ heap : List HeapObj,
      evalExpr 2 (.binary (.ident "h") "==" .nullLit) ⟨heap, [[("h", .handle none)]]⟩
        = .ok (BOOL false) ⟨heap, [[("h", .handle none)]]⟩ :=
  ⟨rfl, rfl, rfl, fun _ => rfl⟩

/-- C6: `&&` and `||` evaluate the right operand only when the left
operand's truthiness does not decide the result: a falsy left of `&&`
yields `BOOL false` (right never evaluated, its effects never happen — the
state is the one after the left operand), a truthy left of `||` yields
`BOOL true` likewise; otherwise the result is exactly the right operand's
evaluation. -/
theorem c6_short_circuit (fuel : Nat) (l r : Expr) (s s1 : State) (v : ASValue)
    (hl : evalExpr fuel l s = .ok v s1) :
    (isTruthy v = false →
        evalExpr (fuel + 1) (.binary l "&&" r) s = .ok (BOOL false) s1) ∧
    (isTruthy v = true →
        evalExpr (fuel + 1) (.binary l "||" r) s = .ok (BOOL true) s1) ∧
    (isTruthy v = true →
        evalExpr (fuel + 1) (.binary l "&&" r) s = evalExpr fuel r s1) ∧
    (isTruthy v = false →
        evalExpr (fuel + 1) (.binary l "||" r) s = evalExpr fuel r s1) := by
  refine ⟨fun hv => ?_, fun hv => ?_, fun hv => ?_, fun hv => ?_⟩ <;>
    simp [evalExpr, hl, Outcome.bind, hv]

theorem makeNumeric_eq (v : ASValue) (q : ℚ) :
    makeNumeric v q = if isFloatV v then ASValue.float q else ASValue.int (toInt32 q) := by
  cases v <;> rfl

theorem toInt32_zero : toInt32 0 = 0 := by
  have : inRange32 ((0 : Int)) := by unfold inRange32; omega
  simpa using toInt32_intCast this

theorem asNumberE_of_numeric {v : ASValue} (h : isNumericV v = true) :
    ∃ q, asNumber v = some q ∧ asNumberE v = .ok q := by
  cases v <;> simp [isNumericV] at h <;> exact ⟨_, rfl, rfl⟩

theorem asNumberE_of_asNumber {v : ASValue} {q : ℚ} (h : asNumber v = some q) :
    asNumberE v = .ok q := by
  unfold asNumberE
  rw [h]

theorem toInt32_and32 (a b : Int) : toInt32 ((and32 a b : Int) : ℚ) = and32 a b :=
  toInt32_intCast (and32_inRange a b)

theorem toInt32_or32 (a b : Int) : toInt32 ((or32 a b : Int) : ℚ) = or32 a b :=
  toInt32_intCast (or32_inRange a b)

theorem toInt32_xor32 (a b : Int) : toInt32 ((xor32 a b : Int) : ℚ) = xor32 a b :=
  toInt32_intCast (xor32_inRange a b)

theorem toInt32_shl32 (a b : Int) : toInt32 ((shl32 a b : Int) : ℚ) = shl32 a b :=
  toInt32_intCast (shl32_inRange a b)

theorem toInt32_sar32 (a : ℚ) (b : Int) :
    toInt32 ((sar32 (toInt32 a) b : Int) : ℚ) = sar32 (toInt32 a) b :=
  toInt32_intCast (sar32_inRange (toInt32_inRange a) b)

/-- C7: division whose right operand is numerically zero yields zero of
the left operand's kind — `Int 0` for an `Int` (or other non-float) left
operand, `Float 0` for a `Float` one — with no error, both for the binary
`/` and for the compound `/=` computation. -/
theorem c7_division_by_zero (fuel : Nat) (l r : Expr) (s s1 s2 : State) (lv rv : ASValue)
    (hl : evalExpr fuel l s = .ok lv s1)
    (hr : evalExpr fuel r s1 = .ok rv s2)
    (hlv : isNumericV lv = true)
    (hr0 : asNumber rv = some 0) :
    evalExpr (fuel + 1) (.binary l "/" r) s
      = .ok (if isFloatV lv then ASValue.float 0 else ASValue.int 0) s2 ∧
    ∀ cur : ASValue, isNumericV cur = true →
      computeValue "/=" rv cur
        = .ok (if isFloatV cur then ASValue.float 0 else ASValue.int 0) := by
  obtain ⟨lq, hlq, hlqE⟩ := asNumberE_of_numeric hlv
  constructor
  · have hlvs : isStringV lv = false := by cases lv <;> simp_all [isNumericV, isStringV]
    simp [evalExpr, hl, hr, Outcome.bind, hlvs, binOpValues, hlqE, liftExcept,
      asNumberE_of_asNumber hr0, Except.bind, makeNumeric_eq, toInt32_zero]
  · intro cur hcur
    obtain ⟨cq, hcq, hcqE⟩ := asNumberE_of_numeric hcur
    simp [computeValue, hcqE, asNumberE_of_asNumber hr0, Except.bind,
      makeNumeric_eq, toInt32_zero]

/-- C7 witness: `7 / 0` is `Int 0`, `7.0` `/=` `0` gives `Float 0`. -/
theorem c7_division_by_zero_witness :
    evalExpr 2 (.binary (.intLit 7) "/" (.intLit 0)) ⟨[], [[]]⟩
      = .ok (ASValue.int 0) ⟨[], [[]]⟩ ∧
    computeValue "/=" (ASValue.int 0) (ASValue.float 7) = .ok (ASValue.float 0) := by
  have h := c7_division_by_zero 1 (.intLit 7) (.intLit 0) ⟨[], [[]]⟩ ⟨[], [[]]⟩ ⟨[], [[]]⟩
    (ASValue.int 7) (ASValue.int 0) (by norm_num [evalExpr, INT, toInt32, jsTrunc, wrap32])
    (by norm_num [evalExpr, INT, toInt32, jsTrunc, wrap32]) rfl (by simp [asNumber])
  exact ⟨by simpa [isFloatV] using h.1, by simpa [isFloatV] using h.2 (ASValue.float 7) rfl⟩

/-- C2: on numeric operands, the arithmetic binary operators `+ - * / %`
produce a `Float` exactly when the left operand is a `Float` and otherwise
an `Int` truncated to 32 bits (`toInt32`, the `value | 0` rule) — in
particular `Int` left with `Float` right yields an `Int`; the bitwise and
shift operators always produce an `Int`, computed from both operands
coerced to 32-bit integers, and the result is in the 32-bit range. -/
theorem c2_numeric_binary_kinds (fuel : Nat) (l r : Expr) (op : String) (s s1 s2 : State)
    (lv rv : ASValue) (lq rq : ℚ)
    (hl : evalExpr fuel l s = .ok lv s1)
    (hr : evalExpr fuel r s1 = .ok rv s2)
    (hlv : isNumericV lv = true) (hrv : isNumericV rv = true)
    (hlq : asNumber lv = some lq) (hrq : asNumber rv = some rq) :
    (op ∈ ["+", "-", "*", "/", "%"] →
        evalExpr (fuel + 1) (.binary l op r) s
          = .ok (if isFloatV lv then ASValue.float (arithValue op lq rq)
                 else ASValue.int (toInt32 (arithValue op lq rq))) s2) ∧
    (op ∈ ["&", "|", "^", "<<", ">>"] →
        evalExpr (fuel + 1) (.binary l op r) s = .ok (ASValue.int (bitValue op lq rq)) s2 ∧
        inRange32 (bitValue op lq rq)) := by
  have hlvs : isStringV lv = false := by cases lv <;> simp_all [isNumericV, isStringV]
  have hrvs : isStringV rv = false := by cases rv <;> simp_all [isNumericV, isStringV]
  have hlqE := asNumberE_of_asNumber hlq
  have hrqE := asNumberE_of_asNumber hrq
  constructor
  · intro hop
    simp only [List.mem_cons, List.mem_singleton, List.not_mem_nil, or_false] at hop
    rcases hop with rfl | rfl | rfl | rfl | rfl <;>
      simp [evalExpr, hl, hr, Outcome.bind, hlvs, hrvs, binOpValues, hlqE, hrqE,
        liftExcept, Except.bind, makeNumeric_eq, arithValue] <;>
      (try (by_cases hrq0 : rq = 0 <;> simp [hrq0, liftExcept]))
  · intro hop
    simp only [List.mem_cons, List.mem_singleton, List.not_mem_nil, or_false] at hop
    rcases hop with rfl | rfl | rfl | rfl | rfl <;>
      refine ⟨?_, ?_⟩ <;>
      simp [evalExpr, hl, hr, Outcome.bind, hlvs, hrvs, binOpValues, hlqE, hrqE,
        liftExcept, Except.bind, INT, bitValue, toInt32_and32, toInt32_or32, toInt32_xor32,
        toInt32_shl32, toInt32_sar32, and32_inRange, or32_inRange, xor32_inRange,
        shl32_inRange, sar32_inRange, toInt32_inRange]

/-- C2 witness: `7 + 2.5` (Int left, Float right) is `Int 9`;
`6 & 3` is `Int 2` and in range. -/
theorem c2_numeric_binary_kinds_witness :
    evalExpr 2 (.binary (.intLit 7) "+" (.floatLit (5 / 2))) ⟨[], [[]]⟩
      = .ok (ASValue.int 9) ⟨[], [[]]⟩ ∧
    evalExpr 2 (.binary (.intLit 6) "&" (.intLit 3)) ⟨[], [[]]⟩
      = .ok (ASValue.int 2) ⟨[], [[]]⟩ := by
  constructor
  · have h := c2_numeric_binary_kinds 1 (.intLit 7) (.floatLit (5 / 2)) "+"
      ⟨[], [[]]⟩ ⟨[], [[]]⟩ ⟨[], [[]]⟩ (ASValue.int 7) (ASValue.float (5 / 2)) 7 (5 / 2)
      (by norm_num [evalExpr, INT, toInt32, jsTrunc, wrap32]) rfl rfl rfl
      (by norm_num [asNumber]) rfl
    have h2 := h.1 (by simp)
    rw [h2]
    norm_num [isFloatV, arithValue, toInt32, jsTrunc, wrap32]
  · have h := c2_numeric_binary_kinds 1 (.intLit 6) (.intLit 3) "&"
      ⟨[], [[]]⟩ ⟨[], [[]]⟩ ⟨[], [[]]⟩ (ASValue.int 6) (ASValue.int 3) 6 3
      (by norm_num [evalExpr, INT, toInt32, jsTrunc, wrap32])
      (by norm_num [evalExpr, INT, toInt32, jsTrunc, wrap32]) rfl rfl
      (by norm_num [asNumber]) (by norm_num [asNumber])
    have h2 := (h.2 (by simp)).1
    rw [h2]
    have hb : bitValue "&" 6 3 = 2 := by decide
    rw [hb]

/-! One-step unfolding equations for the well-founded mutual statement
executor (their `eq_def` forms rewritten once, to drive rewriting without
loops). -/

theorem switchCases_zero (val : ASValue) (matched : Bool)
    (cases : List (Option Expr × List Stmt)) (s : State) :
    switchCases 0 val matched cases s = .timeout := by
  rw [switchCases.eq_def] <;> rfl

theorem switchCases_nil (fuel : Nat) (val : ASValue) (matched : Bool) (s : State) :
    switchCases (fuel + 1) val matched [] s = .ok () s := by
  rw [switchCases.eq_def] <;> rfl

theorem switchCases_cons_true (fuel : Nat) (val : ASValue) (g : Option Expr)
    (body : List Stmt) (rest : List (Option Expr × List Stmt)) (s : State) :
    switchCases (fuel + 1) val true ((g, body) :: rest) s
      = runMatchedCase fuel val body rest s := by
  rw [switchCases.eq_def] <;> rfl

theorem switchCases_cons_default (fuel : Nat) (val : ASValue)
    (body : List Stmt) (rest : List (Option Expr × List Stmt)) (s : State) :
    switchCases (fuel + 1) val false ((none, body) :: rest) s
      = runMatchedCase fuel val body rest s := by
  rw [switchCases.eq_def] <;> rfl

theorem switchCases_cons_guard (fuel : Nat) (val : ASValue) (ge : Expr)
    (body : List Stmt) (rest : List (Option Expr × List Stmt)) (s : State) :
    switchCases (fuel + 1) val false ((some ge, body) :: rest) s
      = (evalExpr fuel ge s).bind fun gv s1 =>
          if isEqual val gv then runMatchedCase fuel val body rest s1
          else switchCases fuel val false rest s1 := by
  rw [switchCases.eq_def] <;> rfl

theorem runMatchedCase_eq (fuel : Nat) (val : ASValue) (body : List Stmt)
    (rest : List (Option Expr × List Stmt)) (s : State) :
    runMatchedCase fuel val body rest s
      = match execStmts fuel body s with
        | .brk s2 => .ok () s2
        | .ok _ s2 => switchCases fuel val true rest s2
        | o => o := by
  rw [runMatchedCase.eq_def] <;> rfl

theorem runBodies_zero (bodies : List (List Stmt)) (s : State) :
    runBodies 0 bodies s = .timeout := by
  rw [runBodies.eq_def] <;> rfl

theorem runBodies_nil (fuel : Nat) (s : State) :
    runBodies (fuel + 1) [] s = .ok () s := by
  rw [runBodies.eq_def] <;> rfl

theorem runBodies_cons (fuel : Nat) (b : List Stmt) (rest : List (List Stmt)) (s : State) :
    runBodies (fuel + 1) (b :: rest) s
      = match execStmts fuel b s with
        | .brk s2 => .ok () s2
        | .ok _ s2 => runBodies fuel rest s2
        | o => o := by
  rw [runBodies.eq_def] <;> rfl

theorem switchSpec_zero (val : ASValue) (cases : List (Option Expr × List Stmt)) (s : State) :
    switchSpec 0 val cases s = .timeout := by
  rw [switchSpec.eq_def] <;> rfl

theorem switchSpec_nil (fuel : Nat) (val : ASValue) (s : State) :
    switchSpec (fuel + 1) val [] s = .ok () s := by
  rw [switchSpec.eq_def] <;> rfl

theorem switchSpec_cons_default (fuel : Nat) (val : ASValue) (body : List Stmt)
    (rest : List (Option Expr × List Stmt)) (s : State) :
    switchSpec (fuel + 1) val ((none, body) :: rest) s
      = runBodies (fuel + 1) (body :: rest.map Prod.snd) s := by
  rw [switchSpec.eq_def] <;> rfl

theorem switchSpec_cons_guard (fuel : Nat) (val : ASValue) (ge : Expr) (body : List Stmt)
    (rest : List (Option Expr × List Stmt)) (s : State) :
    switchSpec (fuel + 1) val ((some ge, body) :: rest) s
      = (evalExpr fuel ge s).bind fun gv s1 =>
          if isEqual val gv then runBodies (fuel + 1) (body :: rest.map Prod.snd) s1
          else switchSpec fuel val rest s1 := by
  rw [switchSpec.eq_def] <;> rfl

theorem execStmt_switch (fuel : Nat) (e : Expr)
    (cases : List (Option Expr × List Stmt)) (s : State) :
    execStmt (fuel + 1) (.switchStmt e cases) s
      = (evalExpr fuel e s).bind fun val s1 => switchCases fuel val false cases s1 := by
  rw [execStmt.eq_def] <;> rfl

/-- C3: switch semantics.  (1) The discriminant is evaluated exactly once,
before any case is examined, and its value drives the scan.  (2) Once a
case has matched, the remaining execution is exactly `runBodies`: every
subsequent case body runs in order — guards are never evaluated again —
until a body raises `Break`, which ends the switch normally.  (3) The
whole unmatched scan refines `switchSpec`, the spec's description: scan
cases in source order, first guard equal to the discriminant (or first
`default`) wins, then all bodies from it onward run until `Break`. -/
theorem c3_switch_fallthrough :
    (∀ (fuel : Nat) (e : Expr) (cases : List (Option Expr × List Stmt)) (s : State),
        execStmt (fuel + 1) (.switchStmt e cases) s
          = (evalExpr fuel e s).bind fun val s1 => switchCases fuel val false cases s1) ∧
    (∀ (fuel : Nat) (val : ASValue) (cases : List (Option Expr × List Stmt)) (s : State),
        switchCases fuel val true cases s = runBodies fuel (cases.map Prod.snd) s) ∧
    (∀ (fuel : Nat) (val : ASValue) (cases : List (Option Expr × List Stmt)) (s : State),
        switchCases fuel val false cases s = switchSpec fuel val cases s) := by
  have h2 : ∀ (cases : List (Option Expr × List Stmt)) (fuel : Nat) (val : ASValue) (s : State),
      switchCases fuel val true cases s = runBodies fuel (cases.map Prod.snd) s := by
    intro cases
    induction cases with
    | nil =>
        intro fuel val s
        cases fuel with
        | zero => rw [switchCases_zero, List.map_nil, runBodies_zero]
        | succ fuel => rw [switchCases_nil, List.map_nil, runBodies_nil]
    | cons c rest ih =>
        intro fuel val s
        obtain ⟨g, body⟩ := c
        cases fuel with
        | zero => rw [switchCases_zero, runBodies_zero]
        | succ fuel =>
            rw [switchCases_cons_true, runMatchedCase_eq, List.map_cons, runBodies_cons]
            cases hres : execStmts fuel body s <;> simp [ih]
  refine ⟨execStmt_switch, fun fuel val cases s => h2 cases fuel val s, ?_⟩
  intro fuel val cases s
  induction cases generalizing fuel s with
  | nil =>
      cases fuel with
      | zero => rw [switchCases_zero, switchSpec_zero]
      | succ fuel => rw [switchCases_nil, switchSpec_nil]
  | cons c rest ih =>
      obtain ⟨g, body⟩ := c
      cases fuel with
      | zero => rw [switchCases_zero, switchSpec_zero]
      | succ fuel =>
          cases g with
          | none =>
              rw [switchCases_cons_default, switchSpec_cons_default,
                runMatchedCase_eq, runBodies_cons]
              cases hres : execStmts fuel body s <;> simp [h2]
          | some ge =>
              rw [switchCases_cons_guard, switchSpec_cons_guard]
              cases hg : evalExpr fuel ge s <;> simp only [Outcome.bind]
              split
              · rw [runMatchedCase_eq, runBodies_cons]
                cases hres : execStmts fuel body _ <;> simp [h2]
              · exact ih fuel _

/-- C8: reading an array through `IndexExpr` is bounds-checked: any
numeric index below `0` or at/above the length — in particular `-1` and
`length` — raises the out-of-bounds `RuntimeError`, while an index `k`
with `0 <= k < length` (whose cell is present) returns the `k`-th element
with no error. -/
theorem c8_array_read_bounds (fuel : Nat) (objE idxE : Expr) (s s1 s2 : State) (a : Addr)
    (cells : List (Option ASValue)) (i : ℚ) (iv : ASValue)
    (hobj : evalExpr fuel objE s = .ok (.array a) s1)
    (hidx : evalExpr fuel idxE s1 = .ok iv s2)
    (hnum : asNumber iv = some i)
    (hcells : s2.heap.get? a = some (.arr cells)) :
    ((i < 0 ∨ (cells.length : ℚ) ≤ i) →
        evalExpr (fuel + 1) (.index objE idxE) s = .err "Array index out of bounds" s2) ∧
    (∀ (k : Nat) (v : ASValue), i = (k : ℚ) → cells.get? k = some (some v) →
        evalExpr (fuel + 1) (.index objE idxE) s = .ok v s2) := by
  have hE := asNumberE_of_asNumber hnum
  rw [List.get?_eq_getElem?] at hcells
  constructor
  · intro hoob
    simp [evalExpr, hobj, hidx, Outcome.bind, liftExcept, hE, hcells, hoob]
  · intro k v hik hk
    have hklen : k < cells.length := List.get?_eq_some.mp hk |>.1
    rw [List.get?_eq_getElem?] at hk
    have hnoob : ¬(i < 0 ∨ (cells.length : ℚ) ≤ i) := by
      subst hik
      push_neg
      constructor
      · positivity
      · exact_mod_cast hklen
    have hget : jsArrayGet cells i = some v := by
      subst hik
      unfold jsArrayGet
      rw [if_pos ⟨Rat.den_natCast k, by simp [Rat.num_natCast]⟩]
      simp [Rat.num_natCast, hk]
    simp [evalExpr, hobj, hidx, Outcome.bind, liftExcept, hE, hcells, hnoob, hget]

/-- C8 witness: for `xs = [1, 2]`, reading `xs[-1]` and `xs[2]` raise the
out-of-bounds error and `xs[0]` yields `1`. -/
theorem c8_array_read_bounds_witness :
    evalExpr 2 (.index (.ident "xs") (.intLit (-1)))
        ⟨[.arr [some (.int 1), some (.int 2)]], [[("xs", .array 0)]]⟩
      = .err "Array index out of bounds"
          ⟨[.arr [some (.int 1), some (.int 2)]], [[("xs", .array 0)]]⟩ ∧
    evalExpr 2 (.index (.ident "xs") (.intLit 2))
        ⟨[.arr [some (.int 1), some (.int 2)]], [[("xs", .array 0)]]⟩
      = .err "Array index out of bounds"
          ⟨[.arr [some (.int 1), some (.int 2)]], [[("xs", .array 0)]]⟩ ∧
    evalExpr 2 (.index (.ident "xs") (.intLit 0))
        ⟨[.arr [some (.int 1), some (.int 2)]], [[("xs", .array 0)]]⟩
      = .ok (.int 1) ⟨[.arr [some (.int 1), some (.int 2)]], [[("xs", .array 0)]]⟩ := by
  refine ⟨?_, ?_, ?_⟩
  · exact (c8_array_read_bounds 1 (.ident "xs") (.intLit (-1))
      ⟨[.arr [some (.int 1), some (.int 2)]], [[("xs", .array 0)]]⟩
      ⟨[.arr [some (.int 1), some (.int 2)]], [[("xs", .array 0)]]⟩
      ⟨[.arr [some (.int 1), some (.int 2)]], [[("xs", .array 0)]]⟩ 0
      [some (.int 1), some (.int 2)] (-1) (.int (-1)) rfl
      (by norm_num [evalExpr, INT, toInt32, jsTrunc, wrap32]; decide)
      (by norm_num [asNumber]) rfl).1 (by norm_num)
  · exact (c8_array_read_bounds 1 (.ident "xs") (.intLit 2)
      ⟨[.arr [some (.int 1), some (.int 2)]], [[("xs", .array 0)]]⟩
      ⟨[.arr [some (.int 1), some (.int 2)]], [[("xs", .array 0)]]⟩
      ⟨[.arr [some (.int 1), some (.int 2)]], [[("xs", .array 0)]]⟩ 0
      [some (.int 1), some (.int 2)] 2 (.int 2) rfl
      (by norm_num [evalExpr, INT, toInt32, jsTrunc, wrap32])
      (by norm_num [asNumber]) rfl).1 (by norm_num)
  · exact (c8_array_read_bounds 1 (.ident "xs") (.intLit 0)
      ⟨[.arr [some (.int 1), some (.int 2)]], [[("xs", .array 0)]]⟩
      ⟨[.arr [some (.int 1), some (.int 2)]], [[("xs", .array 0)]]⟩
      ⟨[.arr [some (.int 1), some (.int 2)]], [[("xs", .array 0)]]⟩ 0
      [some (.int 1), some (.int 2)] 0 (.int 0) rfl
      (by norm_num [evalExpr, INT, toInt32, jsTrunc, wrap32])
      (by norm_num [asNumber]) rfl).2 0 (.int 1) (by norm_num) rfl

/-- C10: assignment through an array index performs no bounds check.
With the target evaluating to an array and any numeric index, the write
succeeds (no out-of-bounds `RuntimeError`): in range it updates the cell,
at or past the length it grows the array to `n + 1` cells (holes in
between), and a negative index leaves the elements untouched (a JS
non-index property) — still without error.  Only a target that is neither
an array nor a native object raises a `RuntimeError`.  The `getValue`
argument covers `=`, the compound operators and `++`/`--` uniformly. -/
theorem c10_index_write_unchecked (fuel : Nat) (objE idxE : Expr)
    (gv : ASValue → Except EvalErr ASValue) (s s1 s2 : State) (i : ℚ) (iv : ASValue) :
    (∀ (a : Addr) (cells : List (Option ASValue)) (w : ASValue),
        evalExpr fuel objE s = .ok (.array a) s1 →
        evalExpr fuel idxE s1 = .ok iv s2 →
        asNumber iv = some i →
        s2.heap.get? a = some (.arr cells) →
        gv ((jsArrayGet cells i).getD (INT 0)) = .ok w →
        assignTo (fuel + 1) (.index objE idxE) gv s
          = .ok () { s2 with heap := heapSet s2.heap a (.arr (jsArraySet cells i w)) }) ∧
    (∀ (n : Nat) (w : ASValue) (cells : List (Option ASValue)),
        i = (n : ℚ) → cells.length ≤ n → (jsArraySet cells i w).length = n + 1) ∧
    (∀ (w : ASValue) (cells : List (Option ASValue)), i < 0 → jsArraySet cells i w = cells) ∧
    (∀ ov : ASValue,
        evalExpr fuel objE s = .ok ov s1 →
        evalExpr fuel idxE s1 = .ok iv s2 →
        asNumber iv = some i →
        (match ov with | .array _ => False | .native _ => False | _ => True) →
        assignTo (fuel + 1) (.index objE idxE) gv s = .err "Index assignment on non-array" s2) := by
  refine ⟨?_, ?_, ?_, ?_⟩
  · intro a cells w hobj hidx hnum hcells hgv
    rw [List.get?_eq_getElem?] at hcells
    simp [assignTo, hobj, hidx, Outcome.bind, liftExcept, asNumberE_of_asNumber hnum,
      hcells, hgv]
  · intro n w cells hin hlen
    subst hin
    unfold jsArraySet
    rw [if_pos ⟨Rat.den_natCast n, by simp [Rat.num_natCast]⟩]
    simp only [Rat.num_natCast, Int.toNat_natCast]
    rcases Nat.lt_or_ge n cells.length with h | h
    · omega
    · simp [Nat.not_lt.mpr h]
      omega
  · intro w cells hneg
    unfold jsArraySet
    rw [if_neg]
    rintro ⟨hden, hnum0⟩
    exact absurd (Rat.num_nonneg.mp hnum0) (not_le.mpr hneg)
  · intro ov hobj hidx hnum hkind
    cases ov <;>
      first
        | exact hkind.elim
        | simp [assignTo, hobj, hidx, Outcome.bind, liftExcept, asNumberE_of_asNumber hnum]

/-- C10 witness: writing `42` at index `5` of the one-element array
`[1]` raises no error and grows the array to six cells with holes. -/
theorem c10_index_write_unchecked_witness :
    assignTo 2 (.index (.ident "xs") (.intLit 5)) (fun _ => .ok (.int 42))
        ⟨[.arr [some (.int 1)]], [[("xs", .array 0)]]⟩
      = .ok () ⟨[.arr [some (.int 1), none, none, none, none, some (.int 42)]],
          [[("xs", .array 0)]]⟩ ∧
    ([some (ASValue.int 1), none, none, none, none, some (.int 42)] :
        List (Option ASValue)).length = 5 + 1 := by
  constructor
  · have h := (c10_index_write_unchecked 1 (.ident "xs") (.intLit 5)
      (fun _ => .ok (.int 42)) ⟨[.arr [some (.int 1)]], [[("xs", .array 0)]]⟩
      ⟨[.arr [some (.int 1)]], [[("xs", .array 0)]]⟩
      ⟨[.arr [some (.int 1)]], [[("xs", .array 0)]]⟩ 5 (.int 5)).1
      0 [some (.int 1)] (.int 42) rfl
      (by norm_num [evalExpr, INT, toInt32, jsTrunc, wrap32])
      (by norm_num [asNumber]) rfl rfl
    rw [h]
    rfl
  · rfl

theorem execStmts_zero (stmts : List Stmt) (s : State) :
    execStmts 0 stmts s = .timeout := by
  rw [execStmts.eq_def] <;> rfl

theorem execStmts_nil (fuel : Nat) (s : State) :
    execStmts (fuel + 1) [] s = .ok () s := by
  rw [execStmts.eq_def] <;> rfl

theorem execStmts_cons (fuel : Nat) (st : Stmt) (rest : List Stmt) (s : State) :
    execStmts (fuel + 1) (st :: rest) s
      = (execStmt fuel st s).bind fun _ s1 => execStmts fuel rest s1 := by
  rw [execStmts.eq_def] <;> rfl

theorem execStmt_exprStmt (fuel : Nat) (e : Expr) (s : State) :
    execStmt (fuel + 1) (.exprStmt e) s = (evalExpr fuel e s).bind fun _ s1 => .ok () s1 := by
  rw [execStmt.eq_def] <;> rfl

theorem assocGet_assocSet_self {α β : Type} [DecidableEq α] (l : List (α × β)) (k : α) (v : β) :
    assocGet (assocSet l k v) k = some v := by
  induction l with
  | nil => simp [assocSet, assocGet]
  | cons p rest ih =>
      obtain ⟨k0, v0⟩ := p
      by_cases h : k0 = k <;> simp [assocSet, assocGet, h, ih]

/-- C5: handle identity and aliasing.  Starting from an object of any
type name and field list bound to `obj` (and an arbitrary value bound to
`tmp`), running `h1 = @obj; h2 = @obj` binds two separately constructed
handle values with the same referent; `h1 == h2` evaluates to `true`
(reference identity of the referent, although each `@` made a fresh
wrapper); after `h1.n = tmp`, reading `h2.n` yields that value: the
mutation through one handle is visible through the other. -/
theorem c5_handle_identity_aliasing (tn : String) (flds : List (String × ASValue)) (w : ASValue) :
    execStmts 9
        [ .exprStmt (.assign (.ident "h1") "=" (.unary "@" (.ident "obj") true)),
          .exprStmt (.assign (.ident "h2") "=" (.unary "@" (.ident "obj") true)) ]
        ⟨[.obj tn flds], [[("obj", ASValue.object 0), ("tmp", w)]]⟩
      = .ok () ⟨[.obj tn flds],
          [[("obj", ASValue.object 0), ("tmp", w),
            ("h1", .handle (some 0)), ("h2", .handle (some 0))]]⟩ ∧
    evalExpr 9 (.binary (.ident "h1") "==" (.ident "h2"))
        ⟨[.obj tn flds],
          [[("obj", ASValue.object 0), ("tmp", w),
            ("h1", .handle (some 0)), ("h2", .handle (some 0))]]⟩
      = .ok (BOOL true)
          ⟨[.obj tn flds],
            [[("obj", ASValue.object 0), ("tmp", w),
              ("h1", .handle (some 0)), ("h2", .handle (some 0))]]⟩ ∧
    execStmt 9 (.exprStmt (.assign (.member (.ident "h1") "n") "=" (.ident "tmp")))
        ⟨[.obj tn flds],
          [[("obj", ASValue.object 0), ("tmp", w),
            ("h1", .handle (some 0)), ("h2", .handle (some 0))]]⟩
      = .ok () ⟨[.obj tn (assocSet flds "n" w)],
          [[("obj", ASValue.object 0), ("tmp", w),
            ("h1", .handle (some 0)), ("h2", .handle (some 0))]]⟩ ∧
    evalExpr 9 (.member (.ident "h2") "n")
        ⟨[.obj tn (assocSet flds "n" w)],
          [[("obj", ASValue.object 0), ("tmp", w),
            ("h1", .handle (some 0)), ("h2", .handle (some 0))]]⟩
      = .ok w ⟨[.obj tn (assocSet flds "n" w)],
          [[("obj", ASValue.object 0), ("tmp", w),
            ("h1", .handle (some 0)), ("h2", .handle (some 0))]]⟩ := by
  refine ⟨?_, rfl, ?_, ?_⟩
  · simp only [execStmts_cons, execStmt_exprStmt, execStmts_nil]
    rfl
  · rw [execStmt_exprStmt]
    rfl
  · simp [evalExpr, getMember, getMemberD, assocGet_assocSet_self, envGet, assocGet,
      Outcome.bind]

/-! Heap-extension lemmas for the native boundary: `wrapNative` only
appends fresh records, and values it produces keep reading back correctly
in any further extension of that heap. -/

mutual

theorem wrapNative_extends : ∀ (x : HostValue) (h : List HeapObj),
    ∃ ext, (wrapNative x h).2 = h ++ ext
  | .hnull, h => ⟨[], by simp [wrapNative]⟩
  | .hnum q, h => ⟨[], by simp [wrapNative]⟩
  | .hbool b, h => ⟨[], by simp [wrapNative]⟩
  | .hstr s, h => ⟨[], by simp [wrapNative]⟩
  | .harr l, h => by
      obtain ⟨ext, hext⟩ := wrapNativeList_extends l h
      exact ⟨ext ++ [HeapObj.arr ((wrapNativeList l h).1.map some)],
        by simp [wrapNative, hext]⟩
  | .hscriptObj a, h => ⟨[], by simp [wrapNative]⟩
  | .hnativeObj a, h => ⟨[], by simp [wrapNative]⟩

theorem wrapNativeList_extends : ∀ (l : List HostValue) (h : List HeapObj),
    ∃ ext, (wrapNativeList l h).2 = h ++ ext
  | [], h => ⟨[], by simp [wrapNativeList]⟩
  | x :: rest, h => by
      obtain ⟨e1, h1⟩ := wrapNative_extends x h
      obtain ⟨e2, h2⟩ := wrapNativeList_extends rest (wrapNative x h).2
      refine ⟨e1 ++ e2, ?_⟩
      have hstep : (wrapNativeList (x :: rest) h).2
          = (wrapNativeList rest (wrapNative x h).2).2 := by
        simp [wrapNativeList]
      rw [hstep, h2, h1, List.append_assoc]

end

theorem get?_append_middle (l2 : List HeapObj) (x : HeapObj) (l3 : List HeapObj) :
    ((l2 ++ [x]) ++ l3).get? l2.length = some x := by
  rw [List.append_assoc, List.get?_append_right (Nat.le_refl _)]
  simp

/-- A rational with denominator 1 is its own numerator. -/
theorem num_intCast_of_den_one {q : ℚ} (h : q.den = 1) : ((q.num : ℚ)) = q := by
  have := Rat.num_div_den q
  rw [h] at this
  simpa using this

mutual

/-- Round-trip through the native boundary, stated over any further
extension of the heap `wrapNative` produced (the extension is what later
sibling allocations append). -/
theorem roundtripExt : ∀ (x : HostValue) (h ext : List HeapObj) (fuel : Nat),
    ValueHost x → hostDepth x ≤ fuel →
    unwrap fuel ((wrapNative x h).2 ++ ext) ((wrapNative x h).1) = some x
  | .hnull, h, ext, fuel, _, hd => by
      obtain ⟨f, rfl⟩ : ∃ f, fuel = f + 1 := ⟨fuel - 1, by simp [hostDepth] at hd; omega⟩
      simp [wrapNative, unwrap, NULL_VAL]
  | .hnum q, h, ext, fuel, hv, hd => by
      simp only [ValueHost] at hv
      obtain ⟨f, rfl⟩ : ∃ f, fuel = f + 1 := ⟨fuel - 1, by simp [hostDepth] at hd; omega⟩
      by_cases hden : q.den = 1
      · have hrange := hv hden
        simp [wrapNative, hden, INT, unwrap]
        rw [show toInt32 q = q.num by
          conv_lhs => rw [← num_intCast_of_den_one hden]
          exact toInt32_intCast hrange]
        exact num_intCast_of_den_one hden
      · simp [wrapNative, hden, FLOAT, unwrap]
  | .hbool b, h, ext, fuel, _, hd => by
      obtain ⟨f, rfl⟩ : ∃ f, fuel = f + 1 := ⟨fuel - 1, by simp [hostDepth] at hd; omega⟩
      simp [wrapNative, BOOL, unwrap]
  | .hstr s, h, ext, fuel, _, hd => by
      obtain ⟨f, rfl⟩ : ∃ f, fuel = f + 1 := ⟨fuel - 1, by simp [hostDepth] at hd; omega⟩
      simp [wrapNative, STRING, unwrap]
  | .harr l, h, ext, fuel, hv, hd => by
      simp only [ValueHost] at hv
      obtain ⟨f, rfl⟩ : ∃ f, fuel = f + 1 := ⟨fuel - 1, by simp [hostDepth] at hd; omega⟩
      have hdl : hostDepthList l ≤ f := by simp [hostDepth] at hd; omega
      have hrt := roundtripListExt l h
        ([HeapObj.arr ((wrapNativeList l h).1.map some)] ++ ext) f hv hdl
      simp only [wrapNative, unwrap]
      rw [get?_append_middle]
      simp only [List.append_assoc, List.singleton_append] at hrt ⊢
      simp [hrt]
  | .hscriptObj a, h, ext, fuel, hv, _ => absurd hv (by simp [ValueHost])
  | .hnativeObj a, h, ext, fuel, hv, _ => absurd hv (by simp [ValueHost])

theorem roundtripListExt : ∀ (l : List HostValue) (h ext : List HeapObj) (fuel : Nat),
    (∀ x ∈ l, ValueHost x) → hostDepthList l ≤ fuel →
    unwrapCells fuel ((wrapNativeList l h).2 ++ ext) ((wrapNativeList l h).1.map some)
      = some l
  | [], h, ext, fuel, _, _ => by simp [wrapNativeList, unwrapCells]
  | x :: rest, h, ext, fuel, hv, hd => by
      have hvx : ValueHost x := hv x (by simp)
      have hvr : ∀ y ∈ rest, ValueHost y := fun y hy => hv y (by simp [hy])
      have hdx : hostDepth x ≤ fuel := by simp [hostDepthList] at hd; omega
      have hdr : hostDepthList rest ≤ fuel := by simp [hostDepthList] at hd; omega
      obtain ⟨e2, he2⟩ := wrapNativeList_extends rest (wrapNative x h).2
      have hx := roundtripExt x h (e2 ++ ext) fuel hvx hdx
      have hrest := roundtripListExt rest (wrapNative x h).2 ext fuel hvr hdr
      simp only [wrapNativeList, List.map_cons, unwrapCells, Option.getD_some]
      rw [he2] at hrest ⊢
      simp only [List.append_assoc] at hrest hx ⊢
      rw [hx, hrest]

end

/-- C1 (amended): the native-boundary round-trip
`unwrap (wrapNative x) = x` holds for null, booleans, strings, numbers and
arrays thereof, with integer numbers restricted to the signed 32-bit
range; non-integer numbers are unrestricted. -/
theorem c1_roundtrip_value_types (x : HostValue) (h : List HeapObj) (fuel : Nat)
    (hx : ValueHost x) (hf : hostDepth x ≤ fuel) :
    unwrap fuel ((wrapNative x h).2) ((wrapNative x h).1) = some x := by
  have := roundtripExt x h [] fuel hx hf
  simpa using this

/-- C1 witness: a concrete mixed array round-trips. -/
theorem c1_roundtrip_value_types_witness :
    ValueHost (.harr [.hnum 3, .hbool true, .hstr "a", .hnull, .hnum (1 / 2)]) ∧
    hostDepth (.harr [.hnum 3, .hbool true, .hstr "a", .hnull, .hnum (1 / 2)]) ≤ 2 ∧
    unwrap 2 ((wrapNative (.harr [.hnum 3, .hbool true, .hstr "a", .hnull, .hnum (1 / 2)]) []).2)
        ((wrapNative (.harr [.hnum 3, .hbool true, .hstr "a", .hnull, .hnum (1 / 2)]) []).1)
      = some (.harr [.hnum 3, .hbool true, .hstr "a", .hnull, .hnum (1 / 2)]) := by
  have h1 : ValueHost (.harr [.hnum 3, .hbool true, .hstr "a", .hnull, .hnum (1 / 2)]) := by
    simp only [ValueHost]
    intro x hx
    simp only [List.mem_cons, List.not_mem_nil, or_false] at hx
    rcases hx with rfl | rfl | rfl | rfl | rfl <;> simp [ValueHost, inRange32] <;> norm_num
  have h2 : hostDepth (.harr [.hnum 3, .hbool true, .hstr "a", .hnull, .hnum (1 / 2)]) ≤ 2 := by
    norm_num [hostDepth, hostDepthList]
  exact ⟨h1, h2, c1_roundtrip_value_types _ [] 2 h1 h2⟩

/-- C1 counterexample: for the integer number `2^31 = 2147483648` (well
within double precision), `wrapNative` builds `INT(2^31)` whose `value |
0` truncation stores `-2^31`, so the round-trip returns `-2147483648 ≠
2147483648`: the claim fails for integer numbers outside the signed
32-bit range. -/
theorem c1_roundtrip_counterexample :
    ((2147483648 : ℚ)).den = 1 ∧
    unwrap 1 ((wrapNative (.hnum 2147483648) []).2) ((wrapNative (.hnum 2147483648) []).1)
      = some (.hnum (-2147483648)) ∧
    unwrap 1 ((wrapNative (.hnum 2147483648) []).2) ((wrapNative (.hnum 2147483648) []).1)
      ≠ some (.hnum 2147483648) := by
  have hden : ((2147483648 : ℚ)).den = 1 := by norm_num
  have ht : toInt32 (2147483648 : ℚ) = -2147483648 := by decide
  refine ⟨hden, ?_, ?_⟩ <;>
    simp [wrapNative, hden, INT, unwrap, ht] <;> norm_num

/-! Helper lemmas for the 32-bit `Int` invariant (C4): every construction
site respects the range, and every store operation preserves it. -/

theorem makeNumeric_intOK (ref : ASValue) (q : ℚ) : (makeNumeric ref q).intOK := by
  cases ref <;> first | exact INT_intOK q | trivial

theorem computeValue_intOK {op : String} {value cur w : ASValue}
    (hval : value.intOK) (h : computeValue op value cur = .ok w) : w.intOK := by
  unfold computeValue at h
  by_cases h1 : op = "="
  · simp only [h1, if_true, Except.ok.injEq] at h
    exact h ▸ hval
  · simp only [h1, if_false] at h
    cases hc : asNumberE cur <;> rw [hc] at h <;> simp only [Except.bind] at h
    · cases h
    cases hv2 : asNumberE value <;> rw [hv2] at h <;> simp only [Except.bind] at h
    · cases h
    split_ifs at h <;>
      first
        | (simp only [Except.ok.injEq] at h; exact h ▸ makeNumeric_intOK _ _)
        | (simp only [Except.ok.injEq] at h; exact h ▸ INT_intOK _)
        | cases h

theorem exceptBind_ok {α β : Type} {e : Except EvalErr α} {f : α → Except EvalErr β} {w : β}
    (h : e.bind f = .ok w) : ∃ a, e = .ok a ∧ f a = .ok w := by
  cases e with
  | ok a => exact ⟨a, rfl, h⟩
  | error q => cases h

theorem binOpValues_intOK {op : String} {l r w : ASValue}
    (h : binOpValues op l r = .ok w) : w.intOK := by
  unfold binOpValues at h
  by_cases c : op = "+"
  · rw [if_pos c] at h
    obtain ⟨a, -, h⟩ := exceptBind_ok h
    obtain ⟨b, -, h⟩ := exceptBind_ok h
    cases h
    exact makeNumeric_intOK _ _
  rw [if_neg c] at h
  clear c
  by_cases c : op = "-"
  · rw [if_pos c] at h
    obtain ⟨a, -, h⟩ := exceptBind_ok h
    obtain ⟨b, -, h⟩ := exceptBind_ok h
    cases h
    exact makeNumeric_intOK _ _
  rw [if_neg c] at h
  clear c
  by_cases c : op = "*"
  · rw [if_pos c] at h
    obtain ⟨a, -, h⟩ := exceptBind_ok h
    obtain ⟨b, -, h⟩ := exceptBind_ok h
    cases h
    exact makeNumeric_intOK _ _
  rw [if_neg c] at h
  clear c
  by_cases c : op = "/"
  · rw [if_pos c] at h
    obtain ⟨a, -, h⟩ := exceptBind_ok h
    by_cases hz : a ≠ 0
    · rw [if_pos hz] at h
      obtain ⟨b, -, h⟩ := exceptBind_ok h
      cases h
      exact makeNumeric_intOK _ _
    · rw [if_neg hz] at h
      cases h
      exact makeNumeric_intOK _ _
  rw [if_neg c] at h
  clear c
  by_cases c : op = "%"
  · rw [if_pos c] at h
    obtain ⟨a, -, h⟩ := exceptBind_ok h
    obtain ⟨b, -, h⟩ := exceptBind_ok h
    cases h
    exact makeNumeric_intOK _ _
  rw [if_neg c] at h
  clear c
  by_cases c : op = "&"
  · rw [if_pos c] at h
    obtain ⟨a, -, h⟩ := exceptBind_ok h
    obtain ⟨b, -, h⟩ := exceptBind_ok h
    cases h
    exact INT_intOK _
  rw [if_neg c] at h
  clear c
  by_cases c : op = "|"
  · rw [if_pos c] at h
    obtain ⟨a, -, h⟩ := exceptBind_ok h
    obtain ⟨b, -, h⟩ := exceptBind_ok h
    cases h
    exact INT_intOK _
  rw [if_neg c] at h
  clear c
  by_cases c : op = "^"
  · rw [if_pos c] at h
    obtain ⟨a, -, h⟩ := exceptBind_ok h
    obtain ⟨b, -, h⟩ := exceptBind_ok h
    cases h
    exact INT_intOK _
  rw [if_neg c] at h
  clear c
  by_cases c : op = "<<"
  · rw [if_pos c] at h
    obtain ⟨a, -, h⟩ := exceptBind_ok h
    obtain ⟨b, -, h⟩ := exceptBind_ok h
    cases h
    exact INT_intOK _
  rw [if_neg c] at h
  clear c
  by_cases c : op = ">>"
  · rw [if_pos c] at h
    obtain ⟨a, -, h⟩ := exceptBind_ok h
    obtain ⟨b, -, h⟩ := exceptBind_ok h
    cases h
    exact INT_intOK _
  rw [if_neg c] at h
  clear c
  by_cases c : op = "=="
  · rw [if_pos c] at h
    cases h
    trivial
  rw [if_neg c] at h
  clear c
  by_cases c : op = "!="
  · rw [if_pos c] at h
    cases h
    trivial
  rw [if_neg c] at h
  clear c
  by_cases c : op = "<"
  · rw [if_pos c] at h
    obtain ⟨a, -, h⟩ := exceptBind_ok h
    obtain ⟨b, -, h⟩ := exceptBind_ok h
    cases h
    trivial
  rw [if_neg c] at h
  clear c
  by_cases c : op = ">"
  · rw [if_pos c] at h
    obtain ⟨a, -, h⟩ := exceptBind_ok h
    obtain ⟨b, -, h⟩ := exceptBind_ok h
    cases h
    trivial
  rw [if_neg c] at h
  clear c
  by_cases c : op = "<="
  · rw [if_pos c] at h
    obtain ⟨a, -, h⟩ := exceptBind_ok h
    obtain ⟨b, -, h⟩ := exceptBind_ok h
    cases h
    trivial
  rw [if_neg c] at h
  clear c
  by_cases c : op = ">="
  · rw [if_pos c] at h
    obtain ⟨a, -, h⟩ := exceptBind_ok h
    obtain ⟨b, -, h⟩ := exceptBind_ok h
    cases h
    trivial
  rw [if_neg c] at h
  clear c
  cases h

theorem assocGet_prop {α β : Type} [DecidableEq α] {P : β → Prop} :
    ∀ {l : List (α × β)} {k : α} {v : β},
      (∀ p ∈ l, P p.2) → assocGet l k = some v → P v := by
  intro l
  induction l with
  | nil => intro k v _ h; simp [assocGet] at h
  | cons p rest ih =>
      intro k v hall h
      obtain ⟨k0, v0⟩ := p
      by_cases hk : k0 = k
      · simp only [assocGet, hk, if_true, Option.some.injEq] at h
        exact h ▸ hall (k0, v0) (by simp)
      · simp only [assocGet, hk, if_false] at h
        exact ih (fun q hq => hall q (by simp [hq])) h

theorem assocSet_prop {α β : Type} [DecidableEq α] {P : β → Prop} :
    ∀ {l : List (α × β)} {k : α} {v : β},
      (∀ p ∈ l, P p.2) → P v → ∀ p ∈ assocSet l k v, P p.2 := by
  intro l
  induction l with
  | nil =>
      intro k v _ hv p hp
      simp only [assocSet, List.mem_singleton] at hp
      subst hp
      exact hv
  | cons q rest ih =>
      intro k v hall hv p hp
      obtain ⟨k0, v0⟩ := q
      unfold assocSet at hp
      split_ifs at hp
      · rcases List.mem_cons.mp hp with h1 | h1
        · subst h1
          exact hv
        · exact hall p (List.mem_cons_of_mem _ h1)
      · rcases List.mem_cons.mp hp with h1 | h1
        · subst h1
          exact hall (k0, v0) (by simp)
        · exact ih (fun q2 hq2 => hall q2 (by simp [hq2])) hv p h1

theorem envGet_prop {P : ASValue → Prop} :
    ∀ {env : Env} {n : String} {v : ASValue},
      (∀ f ∈ env, ∀ p ∈ f, P (p : String × ASValue).2) → envGet env n = some v → P v := by
  intro env
  induction env with
  | nil => intro n v _ h; simp [envGet] at h
  | cons f rest ih =>
      intro n v hall h
      unfold envGet at h
      cases hg : assocGet f n <;> rw [hg] at h
      · exact ih (fun f2 hf2 => hall f2 (by simp [hf2])) h
      · cases h
        exact assocGet_prop (hall f (by simp)) hg

theorem envSet_prop {P : ASValue → Prop} :
    ∀ {env : Env} {n : String} {v : ASValue},
      (∀ f ∈ env, ∀ p ∈ f, P (p : String × ASValue).2) → P v →
      ∀ f ∈ envSet env n v, ∀ p ∈ f, P (p : String × ASValue).2 := by
  intro env
  induction env with
  | nil =>
      intro n v _ hv f hf p hp
      simp [envSet] at hf
      subst hf
      simp at hp
      simp [hp, hv]
  | cons f0 rest ih =>
      intro n v hall hv f hf p hp
      unfold envSet at hf
      split_ifs at hf
      · rcases List.mem_cons.mp hf with rfl | hmem
        · exact assocSet_prop (hall f0 (by simp)) hv p hp
        · exact hall f (by simp [hmem]) p hp
      · rcases List.mem_cons.mp hf with rfl | hmem
        · exact hall f (by simp) p hp
        · exact ih (fun f2 hf2 => hall f2 (by simp [hf2])) hv f hmem p hp
      · rcases List.mem_cons.mp hf with rfl | hmem
        · exact assocSet_prop (hall f0 (by simp)) hv p hp
        · exact hall f (by simp [hmem]) p hp

theorem heapGet_OK {heap : List HeapObj} {a : Addr} {o : HeapObj}
    (hall : ∀ o2 ∈ heap, o2.OK) (h : heap.get? a = some o) : o.OK :=
  hall o (List.get?_mem h)

theorem heapSet_OK {heap : List HeapObj} {a : Addr} {o : HeapObj}
    (hall : ∀ o2 ∈ heap, o2.OK) (ho : o.OK) : ∀ o2 ∈ heapSet heap a o, o2.OK := by
  intro o2 h2
  rcases List.mem_or_eq_of_mem_set h2 with hmem | rfl
  · exact hall o2 hmem
  · exact ho

theorem jsArrayGet_OK {cells : List (Option ASValue)} {i : ℚ} {v : ASValue}
    (hall : ∀ c ∈ cells, cellOK c) (h : jsArrayGet cells i = some v) : v.intOK := by
  unfold jsArrayGet at h
  split_ifs at h
  cases hg : cells.get? i.num.toNat <;> rw [hg] at h
  · cases h
  · rename_i c
    cases c with
    | none => cases h
    | some w2 =>
        cases h
        exact hall _ (List.get?_mem hg)

theorem jsArraySet_OK {cells : List (Option ASValue)} {i : ℚ} {v : ASValue}
    (hall : ∀ c ∈ cells, cellOK c) (hv : v.intOK) :
    ∀ c ∈ jsArraySet cells i v, cellOK c := by
  intro c hc
  unfold jsArraySet at hc
  split_ifs at hc
  · rcases List.mem_or_eq_of_mem_set hc with hmem | rfl
    · exact hall c hmem
    · exact hv
  · rcases List.mem_append.mp hc with hm | hm
    · rcases List.mem_append.mp hm with hm2 | hm2
      · exact hall c hm2
      · rw [List.eq_of_mem_replicate hm2]; trivial
    · simp at hm
      simp [hm, cellOK, hv]
  · exact hall c hc

mutual

theorem wrapNative_OK : ∀ (x : HostValue) (h : List HeapObj), (∀ o ∈ h, o.OK) →
    (wrapNative x h).1.intOK ∧ ∀ o ∈ (wrapNative x h).2, o.OK
  | .hnull, h, hh => ⟨trivial, hh⟩
  | .hnum q, h, hh => by
      refine ⟨?_, hh⟩
      show (if q.den = 1 then INT q else FLOAT q).intOK
      split_ifs
      · exact INT_intOK q
      · trivial
  | .hbool b, h, hh => ⟨trivial, hh⟩
  | .hstr s, h, hh => ⟨trivial, hh⟩
  | .harr l, h, hh => by
      obtain ⟨hvals, hheap⟩ := wrapNativeList_OK l h hh
      refine ⟨trivial, ?_⟩
      intro o ho
      simp only [wrapNative] at ho
      rcases List.mem_append.mp ho with hm | hm
      · exact hheap o hm
      · simp at hm
        subst hm
        intro c hc
        simp only [List.mem_map] at hc
        obtain ⟨v, hv, rfl⟩ := hc
        exact hvals v hv
  | .hscriptObj a, h, hh => ⟨trivial, hh⟩
  | .hnativeObj a, h, hh => ⟨trivial, hh⟩

theorem wrapNativeList_OK : ∀ (l : List HostValue) (h : List HeapObj), (∀ o ∈ h, o.OK) →
    (∀ v ∈ (wrapNativeList l h).1, v.intOK) ∧ ∀ o ∈ (wrapNativeList l h).2, o.OK
  | [], h, hh => ⟨by simp [wrapNativeList], by simpa [wrapNativeList] using hh⟩
  | x :: rest, h, hh => by
      obtain ⟨hv1, hh1⟩ := wrapNative_OK x h hh
      obtain ⟨hv2, hh2⟩ := wrapNativeList_OK rest (wrapNative x h).2 hh1
      refine ⟨?_, by simpa [wrapNativeList] using hh2⟩
      intro v hv
      simp only [wrapNativeList, List.mem_cons] at hv
      rcases hv with rfl | hmem
      · exact hv1
      · exact hv2 v hmem

end

theorem getMemberD_OK {heap : List HeapObj} {v fv : ASValue} {name : String}
    (hh : ∀ o ∈ heap, o.OK) (h : getMemberD heap v name = .val fv) : fv.intOK := by
  unfold getMemberD at h
  cases v <;> try dsimp only at h
  all_goals try cases h
  case object a =>
    cases hg : heap.get? a <;> rw [hg] at h <;> try dsimp only at h
    · cases h
    · rename_i o
      cases o <;> try dsimp only at h
      case obj tn fields =>
        cases ha : assocGet fields name <;> rw [ha] at h <;> try dsimp only at h
        · cases h
        · cases h
          exact assocGet_prop (heapGet_OK hh hg) ha
      case arr => cases h
      case nativeObj => cases h
  case array a => split_ifs at h <;> cases h <;> trivial
  case string s => split_ifs at h <;> cases h <;> trivial

theorem getMember_OK {heap : List HeapObj} {v fv : ASValue} {name : String}
    (hh : ∀ o ∈ heap, o.OK) (h : getMember heap v name = .val fv) : fv.intOK := by
  unfold getMember at h
  cases v <;> try dsimp only at h
  all_goals try exact getMemberD_OK hh h
  case handle r =>
    cases r with
    | none => cases h
    | some a =>
        dsimp only at h
        cases hg : heap.get? a <;> rw [hg] at h <;> try dsimp only at h
        · cases h
        · rename_i o
          cases o <;> try dsimp only at h
          · exact getMemberD_OK hh h
          · cases h
          · exact getMemberD_OK hh h

theorem nativeIndexRead_OK {props : List (ℚ × HostValue)} {i : ℚ} {s : State}
    (hs : s.OK) : (nativeIndexRead props i s).IntsOK ASValue.intOK := by
  unfold nativeIndexRead
  cases hp : assocGet props i
  · exact ⟨trivial, hs⟩
  · rename_i hv
    obtain ⟨h1, h2⟩ := wrapNative_OK hv s.heap hs.1
    exact ⟨h1, h2, hs.2⟩

theorem IntsOK_bind {α β : Type} {vOK : α → Prop} {wOK : β → Prop}
    {o : Outcome α} {f : α → State → Outcome β}
    (ho : o.IntsOK vOK) (hf : ∀ a s, vOK a → s.OK → (f a s).IntsOK wOK) :
    (o.bind f).IntsOK wOK := by
  cases o with
  | ok a s => exact hf a s ho.1 ho.2
  | brk s => exact ho
  | cont s => exact ho
  | err m s => exact ho
  | tyErr m s => exact ho
  | unsupported s => exact ho
  | timeout => trivial

theorem liftExcept_IntsOK {α : Type} {vOK : α → Prop} {e : Except EvalErr α} {s : State}
    (hs : s.OK) (he : ∀ a, e = .ok a → vOK a) : (liftExcept e s).IntsOK vOK := by
  cases e with
  | ok a => exact ⟨he a rfl, hs⟩
  | error err => cases err <;> exact hs

/-- The preservation engine for the 32-bit invariant: under a state whose
reachable `Int`s are in range, expression evaluation yields an in-range
`Int` (when it yields an `Int` at all) and preserves the state invariant,
as does `assignTo` for any store callback whose outputs are in range. -/
theorem evalPreservesAux : ∀ fuel : Nat,
    (∀ (e : Expr) (s : State), State.OK s → (evalExpr fuel e s).IntsOK ASValue.intOK) ∧
    (∀ (t : Expr) (gv : ASValue → Except EvalErr ASValue) (s : State), State.OK s →
      (∀ c w, gv c = .ok w → w.intOK) →
      (assignTo fuel t gv s).IntsOK fun _ => True) := by
  intro fuel
  induction fuel with
  | zero => exact ⟨fun _ _ _ => trivial, fun _ _ _ _ _ => trivial⟩
  | succ fuel ih =>
      obtain ⟨ihE, ihA⟩ := ih
      constructor
      · intro e s hs
        cases e with
        | intLit v => exact ⟨INT_intOK v, hs⟩
        | floatLit v => exact ⟨trivial, hs⟩
        | stringLit v => exact ⟨trivial, hs⟩
        | boolLit v => exact ⟨trivial, hs⟩
        | nullLit => exact ⟨trivial, hs⟩
        | ident n =>
            simp only [evalExpr]
            cases hg : envGet s.env n
            · exact hs
            · exact ⟨envGet_prop hs.2 hg, hs⟩
        | assign target op value =>
            simp only [evalExpr]
            refine IntsOK_bind (ihE value s hs) ?_
            intro v s1 hv hs1
            refine IntsOK_bind
              (ihA target (computeValue op v) s1 hs1 fun c w hw => computeValue_intOK hv hw) ?_
            intro _ s2 _ hs2
            exact ⟨hv, hs2⟩
        | handleAssign target value =>
            simp only [evalExpr]
            refine IntsOK_bind (ihE value s hs) ?_
            intro rhs s1 _ hs1
            refine IntsOK_bind
              (ihA target _ s1 hs1 fun c w hw => by
                cases hw
                cases rhs <;> trivial) ?_
            intro _ s2 _ hs2
            refine ⟨?_, hs2⟩
            cases rhs <;> trivial
        | binary l op r =>
            simp only [evalExpr]
            split_ifs with h1 h2
            · refine IntsOK_bind (ihE l s hs) ?_
              intro lv s1 _ hs1
              split_ifs
              · exact ihE r s1 hs1
              · exact ⟨trivial, hs1⟩
            · refine IntsOK_bind (ihE l s hs) ?_
              intro lv s1 _ hs1
              split_ifs
              · exact ⟨trivial, hs1⟩
              · exact ihE r s1 hs1
            · refine IntsOK_bind (ihE l s hs) ?_
              intro lv s1 _ hs1
              refine IntsOK_bind (ihE r s1 hs1) ?_
              intro rv s2 _ hs2
              split_ifs
              · cases stringify fuel s2.heap lv <;> cases stringify fuel s2.heap rv <;>
                  first | exact ⟨trivial, hs2⟩ | exact hs2
              · exact liftExcept_IntsOK hs2 fun a ha => binOpValues_intOK ha
        | unary op operand pre =>
            simp only [evalExpr]
            split_ifs <;>
              first
                | (refine IntsOK_bind (ihE operand s hs) ?_
                   intro cur s1 hcur hs1
                   refine IntsOK_bind (liftExcept_IntsOK hs1 fun a _ => trivial) ?_
                   intro n s2 _ hs2
                   refine IntsOK_bind
                     (ihA operand _ s2 hs2 fun c w hw => by
                       cases hw
                       exact makeNumeric_intOK _ _) ?_
                   intro _ s3 _ hs3
                   first
                     | exact ⟨makeNumeric_intOK _ _, hs3⟩
                     | exact ⟨hcur, hs3⟩)
                | (refine IntsOK_bind (ihE operand s hs) ?_
                   intro val s1 hval hs1
                   first
                     | exact IntsOK_bind (liftExcept_IntsOK hs1 fun a _ => trivial)
                         fun n s2 _ hs2 => ⟨makeNumeric_intOK _ _, hs2⟩
                     | exact IntsOK_bind (liftExcept_IntsOK hs1 fun a _ => trivial)
                         fun n s2 _ hs2 => ⟨INT_intOK _, hs2⟩
                     | exact ⟨trivial, hs1⟩
                     | (refine ⟨?_, hs1⟩
                        cases val <;> trivial)
                     | exact hs1)
        | member objE mname =>
            simp only [evalExpr]
            refine IntsOK_bind (ihE objE s hs) ?_
            intro obj s1 hobj hs1
            cases hgm : getMember s1.heap obj mname
            · exact ⟨getMember_OK hs1.1 hgm, hs1⟩
            · exact hs1
            · exact hs1
        | index objE idxE =>
            simp only [evalExpr]
            refine IntsOK_bind (ihE objE s hs) ?_
            intro obj s1 hobj hs1
            refine IntsOK_bind (ihE idxE s1 hs1) ?_
            intro idxV s2 hidxV hs2
            refine IntsOK_bind (liftExcept_IntsOK hs2 fun a _ => trivial) ?_
            intro i s3 htriv hs3
            cases obj <;> try exact hs3
            case array a =>
              dsimp only
              cases hg : s3.heap.get? a
              · exact hs3
              · rename_i o
                cases o <;> try exact hs3
                case arr cells =>
                  dsimp only
                  split_ifs
                  · exact hs3
                  · cases hj : jsArrayGet cells i
                    · exact hs3
                    · exact ⟨jsArrayGet_OK (heapGet_OK hs3.1 hg) hj, hs3⟩
            case handle r =>
              cases r with
              | none => exact hs3
              | some a =>
                  dsimp only
                  cases hg : s3.heap.get? a
                  · exact hs3
                  · rename_i o
                    cases o <;> try exact hs3
                    case nativeObj tn props => exact nativeIndexRead_OK hs3
            case native a =>
              dsimp only
              cases hg : s3.heap.get? a
              · exact hs3
              · rename_i o
                cases o <;> try exact hs3
                case nativeObj tn props => exact nativeIndexRead_OK hs3
        | ternary c t f =>
            simp only [evalExpr]
            refine IntsOK_bind (ihE c s hs) ?_
            intro cv s1 _ hs1
            split_ifs
            · exact ihE t s1 hs1
            · exact ihE f s1 hs1
      · intro t gv s hs hgv
        cases t <;> try exact hs
        case ident name =>
            simp only [assignTo]
            refine IntsOK_bind (liftExcept_IntsOK hs fun a ha => hgv _ a ha) ?_
            intro nv s1 hnv hs1
            exact ⟨trivial, hs1.1, envSet_prop hs1.2 hnv⟩
        case member objE mname =>
            simp only [assignTo]
            refine IntsOK_bind (ihE objE s hs) ?_
            intro obj s1 hobj hs1
            cases hf : getFieldsAddr s1.heap obj
            · exact hs1
            · rename_i a
              dsimp only
              cases hg : s1.heap.get? a
              · exact hs1
              · rename_i o
                cases o <;> try exact hs1
                case obj tn fields =>
                  refine IntsOK_bind (liftExcept_IntsOK hs1 fun w hw => hgv _ w hw) ?_
                  intro nv s2 hnv hs2
                  exact ⟨trivial,
                    heapSet_OK hs2.1 (assocSet_prop (heapGet_OK hs1.1 hg) hnv), hs2.2⟩
        case index objE idxE =>
            simp only [assignTo]
            refine IntsOK_bind (ihE objE s hs) ?_
            intro obj s1 hobj hs1
            refine IntsOK_bind (ihE idxE s1 hs1) ?_
            intro idxV s2 hidxV hs2
            refine IntsOK_bind (liftExcept_IntsOK hs2 fun a _ => trivial) ?_
            intro i s3 htriv hs3
            cases obj <;> try exact hs3
            case array a =>
              dsimp only
              cases hg : s3.heap.get? a
              · exact hs3
              · rename_i o
                cases o <;> try exact hs3
                case arr cells =>
                  dsimp only
                  refine IntsOK_bind (liftExcept_IntsOK hs3 fun w hw => hgv _ w hw) ?_
                  intro nv s4 hnv hs4
                  exact ⟨trivial,
                    heapSet_OK hs4.1 (jsArraySet_OK (heapGet_OK hs3.1 hg) hnv), hs4.2⟩
            case native a =>
              dsimp only
              cases hg : s3.heap.get? a
              · exact hs3
              · rename_i o
                cases o <;> try exact hs3
                case nativeObj tn props =>
                  dsimp only
                  refine IntsOK_bind (nativeIndexRead_OK hs3) ?_
                  intro cur s4 _ hs4
                  refine IntsOK_bind (liftExcept_IntsOK hs4 fun w hw => hgv _ w hw) ?_
                  intro nv s5 _ hs5
                  cases hu : unwrap fuel s5.heap nv
                  · trivial
                  · exact ⟨trivial, heapSet_OK hs5.1 trivial, hs5.2⟩

/-- C4: the 32-bit `Int` invariant.  `INT`, the only `Int` constructor,
always stores `toInt32` of its argument, an integer in
`[-2^31, 2^31 - 1]`; and for every expression evaluated in a state whose
reachable `Int`s are in range, the produced value (if an `Int`) is in
range and the resulting state still satisfies the invariant — every
evaluator operation that constructs an `Int` preserves it. -/
theorem c4_int_range_invariant :
    (∀ q : ℚ, ASValue.intOK (INT q)) ∧
    (∀ q : ℚ, inRange32 (toInt32 q)) ∧
    ∀ (fuel : Nat) (e : Expr) (s : State), State.OK s →
      (evalExpr fuel e s).IntsOK ASValue.intOK :=
  ⟨INT_intOK, toInt32_inRange, fun fuel e s hs => (evalPreservesAux fuel).1 e s hs⟩

/-- C4 witness: in the empty state (trivially in-range), evaluating
`(1 << 31) / -1` yields an in-range `Int` and preserves the invariant. -/
theorem c4_int_range_invariant_witness :
    State.OK ⟨[], [[]]⟩ ∧
    (evalExpr 2 (.binary (.binary (.intLit 1) "<<" (.intLit 31)) "/" (.intLit (-1)))
        ⟨[], [[]]⟩).IntsOK ASValue.intOK := by
  have hok : State.OK ⟨[], [[]]⟩ := ⟨by simp, by simp⟩
  exact ⟨hok, c4_int_range_invariant.2.2 2 _ _ hok⟩

/-- C6 witness: `false && boom` where `boom` is an undefined identifier
whose evaluation would be a runtime error: the result is `false` and no
error occurs. -/
theorem c6_short_circuit_witness :
    evalExpr 1 (.boolLit false) ⟨[], [[]]⟩ = .ok (.bool false) ⟨[], [[]]⟩ ∧
    isTruthy (.bool false) = false ∧
    evalExpr 2 (.binary (.boolLit false) "&&" (.ident "boom")) ⟨[], [[]]⟩
      = .ok (BOOL false) ⟨[], [[]]⟩ :=
  ⟨rfl, rfl, (c6_short_circuit 1 (.boolLit false) (.ident "boom") ⟨[], [[]]⟩ ⟨[], [[]]⟩
      (.bool false) rfl).1 rfl⟩

end AngelScript
